import Mathlib

/-!
# Verification of the chess-study-toolkit backend core

A shallow embedding, in Lean 4, of the pure core of the backend found in
`src/backend/main.py` and `src/backend/stockfish_engine.py`:

* `classify_time_control` (main.py lines 732-774),
* `find_continuations` (main.py lines 777-907),
* `generate_puzzles_from_games` (main.py lines 910-1150),
* the task-record lifecycles of `run_import_task` (main.py lines 377-466)
  and `run_puzzle_generation_task` (main.py lines 1153-1203),
* `StockfishEngine.analyze_position` (stockfish_engine.py lines 71-145).

External collaborators (the python-chess rules oracle, the Stockfish
process, the HTTP layer, the on-disk storage) are modelled as explicit
function parameters; per-game replay data produced by python-chess is
modelled as fields of the game record.  Python integers are `Int`/`Nat`;
the few floating-point expressions of the source (progress percentages
and one-decimal rounding of percentages) are modelled in exact rational
arithmetic, which coincides with the float computation for the bounds
and monotonicity facts proved here.
-/

namespace ChessStudy

/-! ## Python `int(...)` parsing

`classify_time_control` calls `int(base_time)` and treats `ValueError`
as unparseable.  Python's `int` strips surrounding whitespace, accepts
an optional sign, and allows single underscores between digits. -/

/-- Strip leading and trailing whitespace, as Python `int` does before
parsing. -/
def pyStrip (s : String) : String :=
  String.mk (((s.toList.dropWhile Char.isWhitespace).reverse.dropWhile Char.isWhitespace).reverse)

/-- Valid digit-run tail: every underscore is followed by a digit, all
other characters are digits. -/
def digitsOkAux : List Char → Bool
  | [] => true
  | '_' :: c :: rest => c.isDigit && digitsOkAux (c :: rest)
  | c :: rest => c.isDigit && digitsOkAux rest

/-- A nonempty digit run, possibly with single underscores strictly
between digits (Python numeric-literal style accepted by `int`). -/
def digitsOk : List Char → Bool
  | [] => false
  | c :: rest => c.isDigit && digitsOkAux (c :: rest)

/-- Numeric value of a digit run, ignoring underscores. -/
def natValue (l : List Char) : ℕ :=
  l.foldl (fun acc c => if c = '_' then acc else acc * 10 + (c.toNat - '0'.toNat)) 0

/-- Model of Python `int(s)`: `none` models `ValueError`. -/
def pyInt? (s : String) : Option ℤ :=
  match (pyStrip s).toList with
  | '-' :: rest => if digitsOk rest then some (-(natValue rest : ℤ)) else none
  | '+' :: rest => if digitsOk rest then some ((natValue rest : ℤ)) else none
  | l => if digitsOk l then some ((natValue l : ℤ)) else none

/-! ## `classify_time_control` (main.py lines 732-774) -/

/-- Whether `sub` starts the character list `l`. -/
def startsWithChars : List Char → List Char → Bool
  | [], _ => true
  | _ :: _, [] => false
  | a :: as, b :: bs => a = b && startsWithChars as bs

/-- Whether `sub` occurs somewhere in the character list `l`. -/
def hasSubChars (sub : List Char) : List Char → Bool
  | [] => sub.isEmpty
  | c :: rest => startsWithChars sub (c :: rest) || hasSubChars sub rest

/-- Model of Python `sub in s` (substring containment). -/
def containsSub (s sub : String) : Bool :=
  hasSubChars sub.toList s.toList

/-- Model of Python `s.lower()` (ASCII lowering, which is all the
source's inputs use). -/
def pyLower (s : String) : String :=
  String.mk (s.toList.map Char.toLower)

/-- `base_time` extraction of `classify_time_control`: Python
`tc.split("+")[0]` when a `+` is present, otherwise the whole string —
i.e. the part before the first `+`. -/
def baseTimeOf (tc : String) : String :=
  if containsSub tc "+" then
    String.mk (tc.toList.takeWhile (fun c => !(c = '+')))
  else tc

/-- Model of `classify_time_control` (main.py lines 732-774). -/
def classify_time_control (timeControlStr : String) : String :=
  let tc := pyLower timeControlStr
  if containsSub tc "correspondence" || containsSub tc "daily" then
    "correspondence"
  else
    match pyInt? (baseTimeOf tc) with
    | none => "blitz"
    | some n =>
      let seconds := if n < 60 then n * 60 else n
      if seconds < 180 then "bullet"
      else if seconds < 600 then "blitz"
      else if seconds < 1800 then "rapid"
      else "classical"

/-! ## `StockfishEngine.analyze_position` (stockfish_engine.py lines 71-145)

The external engine process, reached through `python-chess`, reports a
score relative to the side to move (UCI semantics); `python-chess`
wraps it in a `PovScore` whose point of view is the analyzed position's
side to move.  `analyze_position` calls `score_val.white()` and so
converts it to White's point of view.  `RawInfo` models the raw
`engine.analyse` result. -/

/-- A raw engine score, from the point of view of the side to move of
the analyzed position (UCI semantics). -/
inductive RawScore where
  | cp (n : ℤ)
  | mate (n : ℤ)
deriving DecidableEq

/-- Raw result of `self.engine.analyse(board, ...)`: the `PovScore`
(whose pov is `board.turn`, recorded in `whiteToMove`) and the
principal variation as UCI strings.  `score = none` models an info
dictionary without a score. -/
structure RawInfo where
  score : Option RawScore
  whiteToMove : Bool
  pv : List String
deriving DecidableEq

/-- Two-decimal rendering of `n` as used by `f"{score_cp / 100:.2f}"`. -/
def formatCp (n : ℤ) : String :=
  let a := n.natAbs
  let frac := a % 100
  (if n < 0 then "-" else "") ++ toString (a / 100) ++ "." ++
    (if frac < 10 then "0" ++ toString frac else toString frac)

/-- The dictionary returned by `analyze_position`.  The echoed `fen`
and `depth` fields are omitted: they are copies of the inputs. -/
structure AnalysisRes where
  score : String
  score_cp : ℤ
  best_move : Option String
  principal_variation : List String
  error : Option String
deriving DecidableEq

/-- `score_val.white()` on a relative score: identity when White is to
move, negation otherwise. -/
def povWhite (s : RawScore) (whiteToMove : Bool) : RawScore :=
  match s with
  | .cp n => .cp (if whiteToMove then n else -n)
  | .mate n => .mate (if whiteToMove then n else -n)

/-- Body of `analyze_position`'s `try` block applied to a successful
`engine.analyse` result (stockfish_engine.py lines 101-134). -/
def analyzeOk (info : RawInfo) : AnalysisRes :=
  let scorePair : String × ℤ :=
    match info.score with
    | none => ("0.00", 0)
    | some s =>
      match povWhite s info.whiteToMove with
      | .mate m =>
        (if m > 0 then "M" ++ toString m else "M" ++ toString (-m),
         if m > 0 then 10000 else -10000)
      | .cp n => (formatCp n, n)
  { score := scorePair.1
    score_cp := scorePair.2
    best_move := info.pv.head?
    principal_variation := info.pv.take 5
    error := none }

/-- The fallback dictionary built by `analyze_position`'s `except`
branch (stockfish_engine.py lines 136-145). -/
def analyzeFallback (e : String) : AnalysisRes :=
  { score := "0.00"
    score_cp := 0
    best_move := none
    principal_variation := []
    error := some e }

/-- Model of `StockfishEngine.analyze_position` (stockfish_engine.py
lines 71-145).  `engineRunning` is whether `self.engine` is set;
`startOk` is whether the lazy `self.start()` on line 88-89 (outside the
`try` block) would succeed; `analyseResult` is the outcome of the call
into the external engine, `Except.error` modelling a raised exception.
The function returns `Except.error` exactly when it raises. -/
def analyze_position (engineRunning startOk : Bool)
    (analyseResult : Except String RawInfo) : Except String AnalysisRes :=
  if engineRunning = false ∧ startOk = false then
    .error "Failed to start Stockfish"
  else
    match analyseResult with
    | .ok info => .ok (analyzeOk info)
    | .error e => .ok (analyzeFallback e)

/-! ## Game data

The `Game` dataclass (storage.py lines 17-29) plus the replay data that
python-chess produces from its PGN.  `plys` is the game's mainline as
seen while replaying: for each ply the side to move, the FEN before the
move, the move in UCI, and the FEN after the move.  `plys = none`
models `chess.pgn.read_game` returning `None` or the replay raising
(both engines skip such a game).  The `pgn` and `moves` text fields are
subsumed: `pgn` is only ever parsed into exactly this replay, and
`moves` feeds only the external opening-name lookup. -/

structure GPly where
  whiteToMove : Bool
  fen : String
  moveUci : String
  fenAfterPlayed : String
deriving DecidableEq

structure SrcGame where
  game_id : String
  platform : String
  date : String
  white_player : String
  black_player : String
  result : String
  time_control : String
  rated : Bool
  plys : Option (List GPly)
deriving DecidableEq

/-- `fen.split()[0]`: the piece-placement field of a FEN. -/
def placementOf (fen : String) : String :=
  String.mk (fen.toList.takeWhile (fun c => !(c = ' ')))

/-! ## Rounding to one decimal place

`round(x, 1)` in Python rounds half to even.  The percentage
arithmetic of `find_continuations` is modelled in `ℚ`. -/

/-- Round to the nearest integer, ties to the even integer. -/
def roundHalfEven (q : ℚ) : ℤ :=
  let f := ⌊q⌋
  let r := q - f
  if r < 1/2 then f
  else if 1/2 < r then f + 1
  else if f % 2 = 0 then f else f + 1

/-- `round(q, 1)`: round to one decimal place, ties to even. -/
def roundTenth (q : ℚ) : ℚ :=
  (roundHalfEven (10 * q) : ℚ) / 10

/-! ## `find_continuations` (main.py lines 777-907) -/

/-- Tally kept in the `continuations` dictionary while scanning games
(main.py lines 851-877). -/
structure ContTally where
  move : String
  count : ℕ
  wins : ℕ
  draws : ℕ
  losses : ℕ
deriving DecidableEq

/-- One full continuation record as returned to the caller (tally plus
percentages and the per-move engine evaluation). -/
structure Continuation where
  move : String
  count : ℕ
  wins : ℕ
  draws : ℕ
  losses : ℕ
  win_pct : ℚ
  draw_pct : ℚ
  loss_pct : ℚ
  stockfish_eval : String
  stockfish_eval_cp : ℤ
deriving DecidableEq

/-- The replay loop of main.py lines 841-846: walking the mainline,
return the first ply whose piece placement (position only, not turn
etc.) equals the target's; its move is the continuation move. -/
def findMatch (targetPlacement : String) : List GPly → Option GPly
  | [] => none
  | p :: rest =>
    if placementOf p.fen = targetPlacement then some p
    else findMatch targetPlacement rest

/-- Count and result tally for one matching game, from the queried
player's color (main.py lines 860-877). -/
def tallyGame (color result : String) (c : ContTally) : ContTally :=
  let c1 : ContTally := { c with count := c.count + 1 }
  if pyLower color = "white" then
    if result = "1-0" then { c1 with wins := c1.wins + 1 }
    else if result = "0-1" then { c1 with losses := c1.losses + 1 }
    else { c1 with draws := c1.draws + 1 }
  else
    if result = "0-1" then { c1 with wins := c1.wins + 1 }
    else if result = "1-0" then { c1 with losses := c1.losses + 1 }
    else { c1 with draws := c1.draws + 1 }

/-- Update of the insertion-ordered `continuations` dictionary for one
game's continuation move (main.py lines 851-877). -/
def bumpAssoc (color result san : String) :
    List (String × ContTally) → List (String × ContTally)
  | [] => [(san, tallyGame color result ⟨san, 0, 0, 0, 0⟩)]
  | (k, v) :: rest =>
    if k = san then (k, tallyGame color result v) :: rest
    else (k, v) :: bumpAssoc color result san rest

/-- The game scan of main.py lines 828-880.  `sanAtTarget` models
`board.san(next_move)` on the query's target board (`none` = raised,
which skips the game before any tally). -/
def contTallies (color targetPlacement : String)
    (sanAtTarget : String → Option String) :
    List SrcGame → List (String × ContTally) → List (String × ContTally)
  | [], acc => acc
  | g :: rest, acc =>
    match g.plys with
    | none => contTallies color targetPlacement sanAtTarget rest acc
    | some ps =>
      match findMatch targetPlacement ps with
      | none => contTallies color targetPlacement sanAtTarget rest acc
      | some ply =>
        match sanAtTarget ply.moveUci with
        | none => contTallies color targetPlacement sanAtTarget rest acc
        | some san =>
          contTallies color targetPlacement sanAtTarget rest
            (bumpAssoc color g.result san acc)

/-- Per-continuation engine evaluation (main.py lines 890-900):
`parseSanPush` models `board.copy()`, `parse_san`, `push` and returns
the resulting FEN; a raise anywhere in the `try` block, including one
propagating out of `stockfish.analyze_position`, yields `("N/A", 0)`. -/
def contEval (move : String) (parseSanPush : String → Option String)
    (analyze : String → Except String AnalysisRes) : String × ℤ :=
  match parseSanPush move with
  | none => ("N/A", 0)
  | some fenAfter =>
    match analyze fenAfter with
    | .error _ => ("N/A", 0)
    | .ok r => (r.score, r.score_cp)

/-- Percentages and evaluation for one tally (main.py lines 884-902). -/
def mkContinuation (parseSanPush : String → Option String)
    (analyze : String → Except String AnalysisRes) (t : ContTally) :
    Continuation :=
  let total := t.count
  let ev := contEval t.move parseSanPush analyze
  { move := t.move
    count := t.count
    wins := t.wins
    draws := t.draws
    losses := t.losses
    win_pct := if total > 0 then roundTenth ((t.wins : ℚ) / total * 100) else 0
    draw_pct := if total > 0 then roundTenth ((t.draws : ℚ) / total * 100) else 0
    loss_pct := if total > 0 then roundTenth ((t.losses : ℚ) / total * 100) else 0
    stockfish_eval := ev.1
    stockfish_eval_cp := ev.2 }

/-- Stable insertion for the final `result.sort(key=count, reverse=True)`:
an element goes after every already-placed element of count ≥ its own. -/
def insertByCountDesc (c : Continuation) : List Continuation → List Continuation
  | [] => [c]
  | d :: rest =>
    if d.count ≥ c.count then d :: insertByCountDesc c rest
    else c :: d :: rest

/-- Stable sort, descending by `count` (ties keep encounter order). -/
def sortByCountDesc (l : List Continuation) : List Continuation :=
  l.foldl (fun acc c => insertByCountDesc c acc) []

/-- Model of `find_continuations` (main.py lines 777-907).  The store
is the list `storageGames`; `targetPlacement` is the target board's
piece placement (`board.fen().split()[0]`); `sanAtTarget`,
`parseSanPush` model the rules oracle relative to the target board;
`analyze` models `stockfish.analyze_position` at depth 15 (its
`Except.error` case models a raised exception). -/
def find_continuations
    (storageGames : List SrcGame)
    (targetPlacement : String)
    (color : String)
    (fromDate toDate : Option String)
    (timeControl : Option (List String))
    (usernames : Option (List String))
    (sanAtTarget : String → Option String)
    (parseSanPush : String → Option String)
    (analyze : String → Except String AnalysisRes) : List Continuation :=
  let all0 :=
    if fromDate.isSome || toDate.isSome then
      storageGames.filter (fun g =>
        (match fromDate with | some f => decide (f ≤ g.date) | none => true)
        && (match toDate with | some t => decide (g.date ≤ t) | none => true))
    else storageGames
  let all1 :=
    match usernames with
    | none => all0
    | some us =>
      if us.isEmpty then all0
      else
        let usL := us.map pyLower
        all0.filter (fun g =>
          if pyLower color = "white" then usL.contains (pyLower g.white_player)
          else usL.contains (pyLower g.black_player))
  let all2 :=
    match timeControl with
    | none => all1
    | some tcs =>
      if tcs.isEmpty then all1
      else
        let tcsL := tcs.map pyLower
        all1.filter (fun g => tcsL.contains (classify_time_control g.time_control))
  let tallies := contTallies color targetPlacement sanAtTarget all2 []
  sortByCountDesc (tallies.map (fun kv => mkContinuation parseSanPush analyze kv.2))

/-! ## `generate_puzzles_from_games` (main.py lines 910-1150)

The randomized choices of the source (`random.shuffle` of the game
list, `random.sample` of the candidate plies, the final
`random.shuffle` of the puzzles) are modelled by taking the game list
in post-shuffle order, the sampling function as a parameter, and
returning the puzzles in discovery order (the final shuffle is a
permutation and does not affect any counted or per-puzzle property).
`analyze` models `stockfish.analyze_position` with the engine running
(total, per stockfish_engine.py lines 91-145); `pushUci` models
`chess.Move.from_uci` followed by `board.push` (`none` = raised);
`sanFen` models `board.san` of a UCI move on the FEN's board
(`none` = raised). -/

/-- A puzzle candidate (main.py lines 178-203, 1097-1121).  The
`puzzle_id` (a fresh uuid4), the `opening_name`/`opening_eco` pair
(external opening-book lookup) and the echoed `pgn` text are omitted. -/
structure Puzzle where
  game_id : String
  fen : String
  move_number : ℕ
  ply : ℕ
  best_move : String
  best_move_san : String
  principal_variation : List String
  played_move : Option String
  played_move_san : Option String
  position_eval_cp : ℤ
  best_move_eval_cp : ℤ
  played_move_eval_cp : Option ℤ
  eval_loss_cp : ℤ
  difficulty : String
  puzzle_type : String
  player_color : String
  opponent : String
  date : String
  platform : String
deriving DecidableEq

/-- Classification of a sampled position (main.py lines 1059-1072):
the computed eval loss, the mistake test, the tactical test, and the
forcing of the loss to 0 for tactical candidates.  Returns the
`(puzzle_type, eval_loss)` pair, or `none` when no puzzle is emitted. -/
def classifyPly (positionEvalCp bestMoveEvalCp playedMoveEvalCp : ℤ)
    (playedNeBest : Bool) : Option (String × ℤ) :=
  let evalLoss := positionEvalCp - playedMoveEvalCp
  if playedNeBest = true ∧ 100 ≤ evalLoss then some ("mistake", evalLoss)
  else if 100 ≤ positionEvalCp - bestMoveEvalCp then some ("tactical", 0)
  else none

/-- Difficulty tiers (main.py lines 1076-1083). -/
def difficultyOf (evalLoss : ℤ) : String :=
  if evalLoss < 100 then "easy"
  else if evalLoss < 300 then "easy"
  else if evalLoss < 600 then "medium"
  else "hard"

/-- The difficulty filter test (main.py lines 1086-1087): a `None` or
empty filter list is falsy in Python and filters nothing. -/
def passesDifficulty (difficultyFilter : Option (List String)) (d : String) : Bool :=
  match difficultyFilter with
  | none => true
  | some l => l.isEmpty || l.contains d

/-- One iteration of the sampled-position loop (main.py lines
1024-1121), without the break bookkeeping: analysis of the position
before the move, of the position after the engine's best move (with
flipped sign), and of the position after the played move (with flipped
sign); classification; difficulty; filter; SAN conversion; the
assembled candidate.  Every `continue` of the source is `none`. -/
def processPly
    (analyze : String → ℕ → AnalysisRes)
    (pushUci sanFen : String → String → Option String)
    (difficultyFilter : Option (List String))
    (g : SrcGame) (playerColor opponent : String)
    (ply : ℕ) (p : GPly) : Option Puzzle :=
  let fen := p.fen
  let positionAnalysis := analyze fen 18
  if positionAnalysis.best_move = some "none" then none
  else
    match positionAnalysis.best_move with
    | none => none
    | some best_move_uci =>
      let position_eval_cp := positionAnalysis.score_cp
      match pushUci fen best_move_uci with
      | none => none
      | some fenAfterBest =>
        let best_move_eval_cp := -(analyze fenAfterBest 15).score_cp
        let played_move_uci := p.moveUci
        let played_move_eval_cp := -(analyze p.fenAfterPlayed 15).score_cp
        match classifyPly position_eval_cp best_move_eval_cp played_move_eval_cp
            (decide (played_move_uci ≠ best_move_uci)) with
        | none => none
        | some (puzzle_type, eval_loss) =>
          let difficulty := difficultyOf eval_loss
          if passesDifficulty difficultyFilter difficulty = false then none
          else
            match sanFen fen best_move_uci with
            | none => none
            | some best_move_san =>
              let isMistake := puzzle_type = "mistake"
              let played_move_san? : Option (Option String) :=
                if isMistake then
                  match sanFen fen played_move_uci with
                  | none => none
                  | some s => some (some s)
                else some none
              match played_move_san? with
              | none => none
              | some played_move_san =>
                some { game_id := g.game_id
                       fen := fen
                       move_number := ply / 2 + 1
                       ply := ply
                       best_move := best_move_uci
                       best_move_san := best_move_san
                       principal_variation := positionAnalysis.principal_variation
                       played_move := if isMistake then some played_move_uci else none
                       played_move_san := played_move_san
                       position_eval_cp := position_eval_cp
                       best_move_eval_cp := best_move_eval_cp
                       played_move_eval_cp :=
                         if isMistake then some played_move_eval_cp else none
                       eval_loss_cp := eval_loss
                       difficulty := difficulty
                       puzzle_type := puzzle_type
                       player_color := playerColor
                       opponent := opponent
                       date := g.date
                       platform := g.platform }

/-- Candidate plies of a game (main.py lines 994-1007): ply indices in
`[minPly, maxPly)` at which it is the scanned user's turn. -/
def userPositions (minPly maxPly : ℤ) (playerColor : String)
    (plys : List GPly) : List (ℕ × GPly) :=
  plys.enum.filter (fun pr =>
    decide (minPly ≤ (pr.1 : ℤ)) && decide ((pr.1 : ℤ) < maxPly) &&
    ((pr.2.whiteToMove && decide (playerColor = "white")) ||
     (!pr.2.whiteToMove && decide (playerColor = "black"))))

/-- The sampled-position loop of one game (main.py lines 1016-1133):
stops at 2 puzzles for the game (`MAX_PUZZLES_PER_GAME`) or when
`max_puzzles` is reached right after an append.  Returns the grown
puzzle list and the number of sampled plies actually analyzed. -/
def innerLoop
    (analyze : String → ℕ → AnalysisRes)
    (pushUci sanFen : String → String → Option String)
    (difficultyFilter : Option (List String)) (maxPuzzles : ℤ)
    (g : SrcGame) (playerColor opponent : String) :
    List (ℕ × GPly) → List Puzzle → ℕ → ℕ → List Puzzle × ℕ
  | [], puzzles, _, analyzed => (puzzles, analyzed)
  | (ply, p) :: rest, puzzles, ptg, analyzed =>
    if 2 ≤ ptg then (puzzles, analyzed)
    else
      match processPly analyze pushUci sanFen difficultyFilter g playerColor opponent ply p with
      | none =>
        innerLoop analyze pushUci sanFen difficultyFilter maxPuzzles g playerColor opponent
          rest puzzles ptg (analyzed + 1)
      | some pz =>
        let puzzles' := puzzles ++ [pz]
        if maxPuzzles ≤ (puzzles'.length : ℤ) then (puzzles', analyzed + 1)
        else
          innerLoop analyze pushUci sanFen difficultyFilter maxPuzzles g playerColor opponent
            rest puzzles' (ptg + 1) (analyzed + 1)

/-- Result of a `generate_puzzles_from_games` run together with its
observable effects: the progress-callback invocations
`(progress_pct, game_idx, total_user_games, puzzles_found)` and, per
processed game, how many sampled plies were analyzed. -/
structure GenResult where
  puzzles : List Puzzle
  progressEvents : List (ℕ × ℕ × ℕ × ℕ)
  analyzedCounts : List ℕ
deriving DecidableEq

/-- The game loop of main.py lines 966-1141.  `int((game_idx /
total_user_games) * 100)` is modelled in exact arithmetic as
`game_idx * 100 / total_user_games`; the float computation of the
source differs from it by at most one unit and satisfies the same
bounds and monotonicity. -/
def gamesLoop
    (analyze : String → ℕ → AnalysisRes)
    (pushUci sanFen : String → String → Option String)
    (difficultyFilter : Option (List String)) (maxPuzzles minPly maxPly : ℤ)
    (sample : List (ℕ × GPly) → List (ℕ × GPly))
    (usernameL : String) (totalUserGames : ℕ) :
    List SrcGame → ℕ → List Puzzle → List (ℕ × ℕ × ℕ × ℕ) → List ℕ → GenResult
  | [], _, puzzles, evts, counts => ⟨puzzles, evts, counts⟩
  | g :: rest, idx, puzzles, evts, counts =>
    let playerColor := if pyLower g.white_player = usernameL then "white" else "black"
    let opponent := if pyLower g.white_player = usernameL then g.black_player else g.white_player
    let evts' :=
      if 0 < totalUserGames then
        evts ++ [(idx * 100 / totalUserGames, idx, totalUserGames, puzzles.length)]
      else evts
    match g.plys with
    | none =>
      gamesLoop analyze pushUci sanFen difficultyFilter maxPuzzles minPly maxPly sample
        usernameL totalUserGames rest (idx + 1) puzzles evts' (counts ++ [0])
    | some plys =>
      let ups := userPositions minPly maxPly playerColor plys
      let sampled := if 5 < ups.length then sample ups else ups
      let res := innerLoop analyze pushUci sanFen difficultyFilter maxPuzzles g
        playerColor opponent sampled puzzles 0 0
      let counts' := counts ++ [res.2]
      if maxPuzzles ≤ (res.1.length : ℤ) then ⟨res.1, evts', counts'⟩
      else
        gamesLoop analyze pushUci sanFen difficultyFilter maxPuzzles minPly maxPly sample
          usernameL totalUserGames rest (idx + 1) res.1 evts' counts'

/-- Model of `generate_puzzles_from_games` (main.py lines 910-1150). -/
def generate_puzzles_from_games
    (games : List SrcGame) (username : String) (maxPuzzles : ℤ)
    (difficultyFilter : Option (List String)) (minPly maxPly : ℤ)
    (sample : List (ℕ × GPly) → List (ℕ × GPly))
    (analyze : String → ℕ → AnalysisRes)
    (pushUci sanFen : String → String → Option String) : GenResult :=
  let ul := pyLower username
  let user_games := games.filter (fun g =>
    pyLower g.white_player = ul || pyLower g.black_player = ul)
  gamesLoop analyze pushUci sanFen difficultyFilter maxPuzzles minPly maxPly sample
    ul user_games.length user_games 0 [] [] []

/-! ## Task records (main.py lines 129-131, 334-341, 377-466, 681-690,
1153-1203)

Each background task owns one mutable record in `import_tasks` /
`puzzle_tasks`; only that task's runner writes it.  A task's lifecycle
is modelled as the list of successive record states: the initial
record written by the endpoint, one state per progress-callback
invocation, and one terminal state. -/

inductive TaskStatus where
  | running
  | completed
  | failed
deriving DecidableEq

/-- A `puzzle_tasks[task_id]` record (main.py lines 681-690). -/
structure PuzzleTaskRec where
  status : TaskStatus
  progress : ℕ
  current_game : ℕ
  total_games : ℕ
  puzzles_found : ℕ
  error : Option String
  puzzles : Option (List Puzzle)
deriving DecidableEq

/-- Initial record written by the endpoint (main.py lines 681-690). -/
def puzzleTaskInit : PuzzleTaskRec :=
  ⟨.running, 0, 0, 0, 0, none, none⟩

/-- The progress callback of `run_puzzle_generation_task` (main.py
lines 1169-1176) applied to one event emitted by the generator. -/
def applyPuzzleEvent (r : PuzzleTaskRec) (e : ℕ × ℕ × ℕ × ℕ) : PuzzleTaskRec :=
  { r with
    progress := min e.1 99
    current_game := e.2.1
    total_games := e.2.2.1
    puzzles_found := e.2.2.2 }

/-- Lifecycle of one puzzle-generation task record (main.py lines
1153-1203): initial state, one state per callback, then the terminal
update — `completed` with progress 100 and the result payload, or
`failed` with the error and the progress left as it was. -/
def puzzleTaskTrace (events : List (ℕ × ℕ × ℕ × ℕ))
    (outcome : Except String (List Puzzle)) : List PuzzleTaskRec :=
  let rs := events.scanl applyPuzzleEvent puzzleTaskInit
  rs ++ [match outcome with
    | .ok ps =>
      { rs.getLastD puzzleTaskInit with
        status := .completed, progress := 100, puzzles := some ps }
    | .error e =>
      { rs.getLastD puzzleTaskInit with
        status := .failed, error := some e }]

/-- An `import_tasks[task_id]` record (main.py lines 334-341). -/
structure ImportTaskRec where
  status : TaskStatus
  progress : ℤ
  total_fetched : ℕ
  new_games_added : ℕ
  duplicates_skipped : ℕ
  error : Option String
deriving DecidableEq

/-- Initial record written by the import endpoint. -/
def importTaskInit : ImportTaskRec :=
  ⟨.running, 0, 0, 0, 0, none⟩

/-- `overall_progress` of `run_import_task`'s `progress_callback`
(main.py lines 408-411): platform `idx` of `T` platforms reporting
platform-progress `p`.  The source computes this on floats; the exact
rational value modelled here differs by at most one unit and obeys the
same bounds and monotonicity. -/
def importOverall (T idx p : ℕ) : ℤ :=
  ⌊((idx : ℚ) / (T : ℚ)) * 100 + ((p : ℚ) / 100) * ((100 : ℚ) / (T : ℚ))⌋

/-- One progress-callback invocation of `run_import_task` (main.py
lines 408-411): only the progress field changes, capped at 99. -/
def applyImportEvent (T : ℕ) (r : ImportTaskRec) (e : ℕ × ℕ) : ImportTaskRec :=
  { r with progress := min (importOverall T e.1 e.2) 99 }

/-- Final counters filled in on completion (main.py lines 450-456). -/
structure ImportCounts where
  total_fetched : ℕ
  new_games_added : ℕ
  duplicates_skipped : ℕ
deriving DecidableEq

/-- Lifecycle of one import task record (main.py lines 377-466):
initial state, one state per `(platform index, platform progress)`
callback, then the terminal update — `completed` with progress 100 and
the counters, or `failed` with the error and progress reset to 0
(main.py lines 459-464). -/
def importTaskTrace (T : ℕ) (events : List (ℕ × ℕ)) (counts : ImportCounts)
    (outcome : Option String) : List ImportTaskRec :=
  let rs := events.scanl (applyImportEvent T) importTaskInit
  rs ++ [match outcome with
    | none =>
      { rs.getLastD importTaskInit with
        status := .completed
        progress := 100
        total_fetched := counts.total_fetched
        new_games_added := counts.new_games_added
        duplicates_skipped := counts.duplicates_skipped }
    | some e =>
      { rs.getLastD importTaskInit with
        status := .failed, error := some e, progress := 0 }]

/-! ## Fetcher platform-progress values (fetchers.py)

These are the values the two fetchers pass to the import task's
progress callback; they justify the well-formedness hypotheses used
for import-task traces. -/

/-- `ChessComFetcher`: after archive `i` of `totalArchives`,
`int(((i + 1) / total_archives) * 100)` (fetchers.py lines 66-68),
in exact arithmetic. -/
def chesscomArchiveProgress (totalArchives i : ℕ) : ℕ :=
  (i + 1) * 100 / totalArchives

/-- `LichessFetcher`: at every tenth game, `min(90, (game_count / 500)
* 100)` (fetchers.py lines 197-200), in exact arithmetic; a final call
reports 100 (fetchers.py lines 206-207). -/
def lichessStreamProgress (gameCount : ℕ) : ℕ :=
  min 90 (gameCount * 100 / 500)

/-- Well-formedness of an import task's callback event list, as
guaranteed by `run_import_task` and the fetchers: at least one
platform, platform indices below the platform count and
platform-progress values in [0, 100], events ordered by platform and
nondecreasing within a platform. -/
def importEventsWF (T : ℕ) (events : List (ℕ × ℕ)) : Prop :=
  1 ≤ T ∧ (∀ e ∈ events, e.1 < T ∧ e.2 ≤ 100) ∧
    List.Chain' (fun a b : ℕ × ℕ => a.1 < b.1 ∨ (a.1 = b.1 ∧ a.2 ≤ b.2)) events

/-! ## Shared helper predicates -/

/-- A tally is well formed when its result counts add up to its game
count; `bumpAssoc` preserves this. -/
def tallyWF (t : ContTally) : Prop :=
  t.wins + t.draws + t.losses = t.count

/-- Number of puzzles in `l` whose `game_id` is `gid`. -/
def pzCount (gid : String) (l : List Puzzle) : ℕ :=
  (l.filter (fun p => decide (p.game_id = gid))).length

/-! ## Concrete scenarios used by witnesses and counterexamples

A one-game store: alice plays White against bob and wins; the game's
single recorded ply starts from a position with FEN `"P0"` where the
engine's best move is `"bm"` but alice played `"mv"`. -/

/-- Relative (side-to-move) centipawn scores of the external engine on
the three positions of the scenario: `"P0"` (White to move, +50 for
White), `"PB"` (after the best move, Black to move, -40 for Black,
i.e. +40 for White), `"PP"` (after the played move, Black to move,
+80 for Black, i.e. -80 for White: alice's move lost 130 cp). -/
def stmEval (fen : String) : ℤ :=
  if fen = "P0" then 50 else if fen = "PB" then -40 else if fen = "PP" then 80 else 0

/-- Side to move of each scenario position. -/
def turnWhiteOf (fen : String) : Bool :=
  fen = "P0"

/-- Principal variation the engine reports on each scenario position. -/
def pvOf (fen : String) : List String :=
  if fen = "P0" then ["bm"] else []

/-- `stockfish.analyze_position` in the scenario, with the engine
running: `analyzeOk` applied to the raw engine output. -/
def analyzeSc (fen : String) (_depth : ℕ) : AnalysisRes :=
  analyzeOk ⟨some (.cp (stmEval fen)), turnWhiteOf fen, pvOf fen⟩

/-- `analyze_position` as seen by `find_continuations` in the
scenario (depth 15, engine running, analysis succeeding). -/
def analyzeScE (fen : String) : Except String AnalysisRes :=
  .ok (analyzeSc fen 15)

/-- The rules oracle applying a UCI move to a scenario FEN. -/
def pushSc (fen uci : String) : Option String :=
  if fen = "P0" ∧ uci = "bm" then some "PB"
  else if fen = "P0" ∧ uci = "mv" then some "PP"
  else none

/-- The rules oracle rendering a UCI move as SAN (scenario: the UCI
string itself). -/
def sanSc (_fen uci : String) : Option String :=
  some uci

/-- SAN rendering relative to the target board in the scenario. -/
def sanAtSc (uci : String) : Option String :=
  some uci

/-- `parse_san` plus `push` on the target board in the scenario. -/
def parseSanPushSc (san : String) : Option String :=
  if san = "mv" then some "PP" else none

/-- The scenario game. -/
def gameSc : SrcGame :=
  { game_id := "g1"
    platform := "lichess"
    date := "2024-01-01"
    white_player := "alice"
    black_player := "bob"
    result := "1-0"
    time_control := "300+0"
    rated := true
    plys := some [⟨true, "P0", "mv", "PP"⟩] }

/-- A second scenario analysis oracle under which alice's played move
loses exactly 100 cp as computed by the source (White's pov before:
+50; White's pov after the played move: +50 reported, negated to -50),
so a `mistake` puzzle is emitted. -/
def analyzeSc2 (fen : String) (_depth : ℕ) : AnalysisRes :=
  if fen = "P0" then ⟨"0.50", 50, some "bm", ["bm"], none⟩
  else if fen = "PP" then ⟨"0.50", 50, none, [], none⟩
  else ⟨"0.00", 0, none, [], none⟩

/-- The puzzle emitted by the scenario run with `analyzeSc2`: a
100 cp mistake on alice's single recorded ply. -/
def pzSc : Puzzle :=
  { game_id := "g1"
    fen := "P0"
    move_number := 1
    ply := 0
    best_move := "bm"
    best_move_san := "bm"
    principal_variation := ["bm"]
    played_move := some "mv"
    played_move_san := some "mv"
    position_eval_cp := 50
    best_move_eval_cp := 0
    played_move_eval_cp := some (-50)
    eval_loss_cp := 100
    difficulty := "easy"
    puzzle_type := "mistake"
    player_color := "white"
    opponent := "bob"
    date := "2024-01-01"
    platform := "lichess" }

/-- The single continuation produced by the scenario query: alice's
winning game contributes one `"mv"` continuation with a win. -/
def contSc : Continuation :=
  { move := "mv"
    count := 1
    wins := 1
    draws := 0
    losses := 0
    win_pct := 100
    draw_pct := 0
    loss_pct := 0
    stockfish_eval := "-0.80"
    stockfish_eval_cp := -80 }

/-! # Theorems -/

/-- C3 (counterexample): the claim maps `"180+0"` to `bullet`, but
`classify_time_control "180+0"` is `"blitz"`: the base time is 180
seconds and the bullet bucket requires strictly less than 180. -/
theorem claim_C3_counterexample :
    classify_time_control "180+0" = "blitz" ∧
      ¬ classify_time_control "180+0" = "bullet" := by
  constructor
  · decide
  · decide

/-- C3 (amended): `classify_time_control` maps `"180+0"` to `blitz`
(the 180-second boundary belongs to blitz), `"600"` to `rapid`,
`"3+0"` to `blitz`, `"correspondence"` to `correspondence`, and
`"garbage"` to `blitz`. -/
theorem claim_C3_amended :
    classify_time_control "180+0" = "blitz" ∧
      classify_time_control "600" = "rapid" ∧
      classify_time_control "3+0" = "blitz" ∧
      classify_time_control "correspondence" = "correspondence" ∧
      classify_time_control "garbage" = "blitz" := by
  refine ⟨by decide, by decide, by decide, by decide, by decide⟩

/-- C4: for every time-control string: a correspondence string (one
containing `correspondence` or `daily`, lowercased) classifies as
`correspondence`; otherwise the numeric base time (the part before
`+`, in seconds) is multiplied by 60 when its value is under 60, and
bucketed as `bullet` under 180 s, `blitz` under 600 s, `rapid` under
1800 s, `classical` at 1800 s or more; a non-correspondence string
whose base time cannot be parsed as a number classifies as `blitz`. -/
theorem claim_C4 (s : String) :
    ((containsSub (pyLower s) "correspondence" || containsSub (pyLower s) "daily") = true →
      classify_time_control s = "correspondence")
    ∧ ((containsSub (pyLower s) "correspondence" || containsSub (pyLower s) "daily") = false →
      (pyInt? (baseTimeOf (pyLower s)) = none → classify_time_control s = "blitz")
      ∧ ∀ n : ℤ, pyInt? (baseTimeOf (pyLower s)) = some n →
          ((if n < 60 then n * 60 else n) < 180 → classify_time_control s = "bullet")
          ∧ (180 ≤ (if n < 60 then n * 60 else n) → (if n < 60 then n * 60 else n) < 600 →
              classify_time_control s = "blitz")
          ∧ (600 ≤ (if n < 60 then n * 60 else n) → (if n < 60 then n * 60 else n) < 1800 →
              classify_time_control s = "rapid")
          ∧ (1800 ≤ (if n < 60 then n * 60 else n) → classify_time_control s = "classical")) := by
  constructor
  · intro h
    simp [classify_time_control, h]
  · intro h
    refine ⟨fun hp => by simp [classify_time_control, h, hp], fun n hp => ?_⟩
    have hC : classify_time_control s =
        if (if n < 60 then n * 60 else n) < 180 then "bullet"
        else if (if n < 60 then n * 60 else n) < 600 then "blitz"
        else if (if n < 60 then n * 60 else n) < 1800 then "rapid"
        else "classical" := by
      simp [classify_time_control, h, hp]
    rw [hC]
    refine ⟨fun h1 => ?_, fun h1 h2 => ?_, fun h1 h2 => ?_, fun h1 => ?_⟩ <;>
      (split_ifs <;> first | rfl | omega)

/-- C4 (witness): the string `"15+10"` is not a correspondence string,
its base time parses to 15, which is under 60 and scales to 900
seconds, in the rapid bucket. -/
theorem claim_C4_witness :
    (containsSub (pyLower "15+10") "correspondence" ||
        containsSub (pyLower "15+10") "daily") = false
    ∧ pyInt? (baseTimeOf (pyLower "15+10")) = some 15
    ∧ classify_time_control "15+10" = "rapid" := by
  refine ⟨by decide, by decide, ?_⟩
  have h := (claim_C4 "15+10").2 (by decide)
  exact ((h.2 15 (by decide)).2.2.1 (by decide) (by decide))

/-- C10 (counterexample): `analyze_position` can raise.  When the
engine handle is unset and the lazy `self.start()` of
stockfish_engine.py lines 88-89 — which sits outside the `try` block —
fails, the `RuntimeError` propagates to the caller instead of being
turned into the fallback dictionary. -/
theorem claim_C10_counterexample :
    analyze_position false false (.ok ⟨some (.cp 0), true, []⟩) =
      .error "Failed to start Stockfish" := by
  rfl

/-- C10 (amended): provided the engine process is already running,
`analyze_position` always returns a result dictionary and never
raises; on any internal analysis failure it returns score `"0.00"`,
`score_cp` 0 and `best_move` `None` (with an error key), so a failed
oracle call inside `find_continuations` surfaces as an evaluation of
`("0.00", 0)` rather than reaching the `"N/A"` branch.  When the
engine is not yet running and its lazy start fails, the exception
propagates (and `find_continuations` does reach the `"N/A"` branch). -/
theorem claim_C10_amended :
    (∀ (startOk : Bool) (r : Except String RawInfo),
      ∃ res, analyze_position true startOk r = .ok res)
    ∧ (∀ (startOk : Bool) (e : String),
      analyze_position true startOk (.error e) = .ok (analyzeFallback e)
      ∧ (analyzeFallback e).score = "0.00"
      ∧ (analyzeFallback e).score_cp = 0
      ∧ (analyzeFallback e).best_move = none
      ∧ (analyzeFallback e).error = some e)
    ∧ (∀ (mv fen : String) (parseSanPush : String → Option String)
        (e : String → String),
      parseSanPush mv = some fen →
      contEval mv parseSanPush
          (fun f => analyze_position true true (.error (e f))) = ("0.00", 0))
    ∧ (∀ (mv fen : String) (parseSanPush : String → Option String),
      parseSanPush mv = some fen →
      contEval mv parseSanPush (fun _ => .error "Failed to start Stockfish") =
        ("N/A", 0)) := by
  refine ⟨?_, ?_, ?_, ?_⟩
  · intro startOk r
    cases r with
    | ok info => exact ⟨analyzeOk info, rfl⟩
    | error e => exact ⟨analyzeFallback e, rfl⟩
  · intro startOk e
    exact ⟨rfl, rfl, rfl, rfl, rfl⟩
  · intro mv fen parseSanPush e hp
    simp [contEval, hp, analyze_position, analyzeFallback]
  · intro mv fen parseSanPush hp
    simp [contEval, hp]

/-- C10 (witness): instance of the amended theorem at the move `"mv"`
of the concrete scenario, whose `parse_san`/`push` yields FEN `"PP"`. -/
theorem claim_C10_witness :
    parseSanPushSc "mv" = some "PP"
    ∧ contEval "mv" parseSanPushSc
        (fun f => analyze_position true true (.error ("engine died at " ++ f))) =
      ("0.00", 0) := by
  refine ⟨by decide, ?_⟩
  exact claim_C10_amended.2.2.1 "mv" "PP" parseSanPushSc
    (fun f => "engine died at " ++ f) (by decide)

/-- C1 (code bug): the recorded evaluations are not from the scanned
player's perspective.  `analyze_position` converts the engine's
relative score to White's point of view (`score_val.white()`,
stockfish_engine.py line 114), yet `generate_puzzles_from_games`
negates it after a move with the comment "Flip perspective" and then
computes `eval_loss` "from player's perspective" (main.py lines
1047-1059).  In the concrete scenario alice (White) blunders 130 cp:
the engine's relative score after her move `"mv"` (position `"PP"`,
Black to move) is +80, so the claimed side-to-move negation gives the
player's value -80; but `analyze_position` reports -80 (White's pov)
and the source records its negation +80, computes `eval_loss = -30`,
and emits no puzzle at all for a 130 cp blunder. -/
theorem claim_C1_code_bug :
    stmEval "PP" = 80
    ∧ -(stmEval "PP") = -80
    ∧ (analyzeSc "PP" 15).score_cp = -80
    ∧ -(analyzeSc "PP" 15).score_cp = 80
    ∧ (generate_puzzles_from_games [gameSc] "alice" 50 none 0 20
        (fun l => l) analyzeSc pushSc sanSc).puzzles = [] := by
  refine ⟨by decide, by decide, by decide, by decide, by decide⟩

/-- Case analysis of a successful classification (main.py lines
1059-1072). -/
theorem classifyPly_cases (pe be ple : ℤ) (nb : Bool) (pt : String) (loss : ℤ)
    (h : classifyPly pe be ple nb = some (pt, loss)) :
    (pt = "mistake" ∧ loss = pe - ple ∧ nb = true ∧ 100 ≤ pe - ple)
    ∨ (pt = "tactical" ∧ loss = 0 ∧ ¬(nb = true ∧ 100 ≤ pe - ple) ∧ 100 ≤ pe - be) := by
  simp only [classifyPly] at h
  by_cases h1 : nb = true ∧ 100 ≤ pe - ple
  · rw [if_pos h1] at h
    simp only [Option.some.injEq, Prod.mk.injEq] at h
    exact Or.inl ⟨h.1.symm, h.2.symm, h1.1, h1.2⟩
  · rw [if_neg h1] at h
    by_cases h2 : 100 ≤ pe - be
    · rw [if_pos h2] at h
      simp only [Option.some.injEq, Prod.mk.injEq] at h
      exact Or.inr ⟨h.1.symm, h.2.symm, h1, h2⟩
    · rw [if_neg h2] at h
      cases h

/-- Facts holding of any puzzle emitted by one sampled-ply iteration
(main.py lines 1024-1121): its kind, the forced loss, the difficulty
from the loss, the filter having passed, and the source game's id. -/
theorem processPly_spec
    (analyze : String → ℕ → AnalysisRes)
    (pushUci sanFen : String → String → Option String)
    (df : Option (List String))
    (g : SrcGame) (pc opp : String) (ply : ℕ) (p : GPly) (pz : Puzzle)
    (h : processPly analyze pushUci sanFen df g pc opp ply p = some pz) :
    (pz.puzzle_type = "mistake" ∨ pz.puzzle_type = "tactical")
    ∧ (pz.puzzle_type = "tactical" →
        pz.eval_loss_cp = 0 ∧ pz.played_move = none ∧ pz.played_move_eval_cp = none)
    ∧ (pz.puzzle_type = "mistake" → ∃ v, pz.played_move_eval_cp = some v
        ∧ pz.eval_loss_cp = pz.position_eval_cp - v
        ∧ 100 ≤ pz.eval_loss_cp
        ∧ ∃ u, pz.played_move = some u ∧ ¬u = pz.best_move)
    ∧ pz.difficulty = difficultyOf pz.eval_loss_cp
    ∧ passesDifficulty df pz.difficulty = true
    ∧ pz.game_id = g.game_id := by
  rcases hbm : (analyze p.fen 18).best_move with _ | bu
  · simp [processPly, hbm] at h
  by_cases hn : bu = "none"
  · simp [processPly, hbm, hn] at h
  rcases hpush : pushUci p.fen bu with _ | fb
  · simp [processPly, hbm, hn, hpush] at h
  rcases hcl : classifyPly (analyze p.fen 18).score_cp (-(analyze fb 15).score_cp)
      (-(analyze p.fenAfterPlayed 15).score_cp) (!decide (p.moveUci = bu)) with _ | ptl
  · simp [processPly, hbm, hn, hpush, hcl] at h
  obtain ⟨pt, loss⟩ := ptl
  have hcc := classifyPly_cases _ _ _ _ _ _ hcl
  by_cases hf : passesDifficulty df (difficultyOf loss) = false
  · simp [processPly, hbm, hn, hpush, hcl, hf] at h
  have hf' : passesDifficulty df (difficultyOf loss) = true := by
    revert hf
    cases passesDifficulty df (difficultyOf loss) <;> simp
  rcases hsan : sanFen p.fen bu with _ | bs
  · simp [processPly, hbm, hn, hpush, hcl, hf', hsan] at h
  by_cases hm : pt = "mistake"
  · rcases hsan2 : sanFen p.fen p.moveUci with _ | ps
    · simp [processPly, hbm, hn, hpush, hcl, hf', hsan, hm, hsan2] at h
    simp [processPly, hbm, hn, hpush, hcl, hf', hsan, hm, hsan2] at h
    subst h
    rcases hcc with ⟨hpt, hloss, hnb, hge⟩ | ⟨hpt, _, _, _⟩
    · have hne : ¬p.moveUci = bu := of_decide_eq_false (by simpa using hnb)
      refine ⟨Or.inl (by simp [hm]), ?_, ?_, by simp, ?_, by simp⟩
      · intro hc
        simp only [hm] at hc
        exact absurd hc (by decide)
      · intro _
        exact ⟨-(analyze p.fenAfterPlayed 15).score_cp, by simp, by simp [hloss],
          by simpa [hloss] using hge, p.moveUci, by simp, by simpa using hne⟩
      · simpa using hf'
    · rw [hm] at hpt
      exact absurd hpt (by decide)
  · simp [processPly, hbm, hn, hpush, hcl, hf', hsan, hm] at h
    subst h
    rcases hcc with ⟨hpt, _, _, _⟩ | ⟨hpt, hloss, _, _⟩
    · exact absurd hpt hm
    · refine ⟨Or.inr (by simp [hpt]), ?_, ?_, by simp, ?_, by simp⟩
      · intro _
        exact ⟨by simp [hloss], by simp [hm], by simp [hm]⟩
      · intro hc
        simp only at hc
        exact absurd hc hm
      · simpa using hf'

/-- Master description of the sampled-ply loop (main.py lines
1016-1133): the puzzle list grows only by appended puzzles, all coming
from `processPly` on this game; at most one ply is analyzed per list
entry; at most `2 - ptg` puzzles are appended; and the global cap is
respected as soon as it held strictly on entry. -/
theorem innerLoop_spec
    (analyze : String → ℕ → AnalysisRes)
    (pushUci sanFen : String → String → Option String)
    (df : Option (List String)) (maxP : ℤ)
    (g : SrcGame) (pc opp : String) :
    ∀ (l : List (ℕ × GPly)) (acc : List Puzzle) (ptg an : ℕ),
      ∃ new k,
        innerLoop analyze pushUci sanFen df maxP g pc opp l acc ptg an = (acc ++ new, an + k)
        ∧ k ≤ l.length
        ∧ new.length + ptg ≤ max 2 ptg
        ∧ (∀ pz ∈ new, ∃ ply p, processPly analyze pushUci sanFen df g pc opp ply p = some pz)
        ∧ ((acc.length : ℤ) < maxP → ((acc ++ new).length : ℤ) ≤ maxP) := by
  intro l
  induction l with
  | nil =>
    intro acc ptg an
    refine ⟨[], 0, by simp [innerLoop], by simp, by simp, by simp, ?_⟩
    intro h
    simpa using le_of_lt h
  | cons hd rest ih =>
    intro acc ptg an
    obtain ⟨ply, p⟩ := hd
    by_cases hptg : 2 ≤ ptg
    · refine ⟨[], 0, by simp [innerLoop, hptg], by simp, by simp, by simp, ?_⟩
      intro h
      simpa using le_of_lt h
    · rcases hpp : processPly analyze pushUci sanFen df g pc opp ply p with _ | pz
      · obtain ⟨new, k, heq, hk, hlen2, hprov, hcap⟩ := ih acc ptg (an + 1)
        refine ⟨new, k + 1, ?_, by simpa using Nat.succ_le_succ hk, hlen2, hprov, hcap⟩
        simp only [innerLoop, hptg, if_false, hpp]
        rw [heq]
        simp only [Prod.mk.injEq]
        exact ⟨by trivial, by omega⟩
      · by_cases hmax : maxP ≤ (((acc ++ [pz]).length : ℕ) : ℤ)
        · have hm2 : (2 : ℕ) ⊔ ptg = 2 := Nat.max_eq_left (by omega)
          refine ⟨[pz], 1, ?_, by simp, ?_, ?_, ?_⟩
          · simp only [innerLoop, hptg, if_false, hpp]
            rw [if_pos hmax]
          · rw [hm2]
            simp
            omega
          · intro q hq
            simp only [List.mem_singleton] at hq
            subst hq
            exact ⟨ply, p, hpp⟩
          · intro hlt
            simp only [List.length_append, List.length_singleton]
            push_cast at hlt ⊢
            omega
        · obtain ⟨new, k, heq, hk, hlen2, hprov, hcap⟩ := ih (acc ++ [pz]) (ptg + 1) (an + 1)
          have e1 : (2 : ℕ) ⊔ (ptg + 1) = 2 := Nat.max_eq_left (by omega)
          have e2 : (2 : ℕ) ⊔ ptg = 2 := Nat.max_eq_left (by omega)
          refine ⟨pz :: new, k + 1, ?_, ?_, ?_, ?_, ?_⟩
          · simp only [innerLoop, hptg, if_false, hpp]
            rw [if_neg hmax, heq]
            simp only [List.append_assoc, List.singleton_append, Prod.mk.injEq]
            exact ⟨by trivial, by omega⟩
          · simp only [List.length_cons]
            omega
          · rw [e2]
            rw [e1] at hlen2
            simp only [List.length_cons]
            omega
          · intro q hq
            rcases List.mem_cons.mp hq with hq | hq
            · subst hq
              exact ⟨ply, p, hpp⟩
            · exact hprov q hq
          · intro hlt
            have h2 : (((acc ++ [pz]).length : ℕ) : ℤ) < maxP := by
              push_cast at hmax ⊢
              omega
            have h3 := hcap h2
            simpa [List.append_assoc] using h3

/-- Provenance through the game loop (main.py lines 966-1141): every
returned puzzle is either carried in from the accumulator or produced
by `processPly` on one of the remaining games; every appended
analyzed-plies count is at most 5 (given the sampling contract); and
the global cap is respected as soon as it held strictly on entry. -/
theorem gamesLoop_spec
    (analyze : String → ℕ → AnalysisRes)
    (pushUci sanFen : String → String → Option String)
    (df : Option (List String)) (maxP minPly maxPly : ℤ)
    (sample : List (ℕ × GPly) → List (ℕ × GPly))
    (ul : String) (total : ℕ)
    (hsample : ∀ l, 5 ≤ l.length → (sample l).length = 5) :
    ∀ (rest : List SrcGame) (idx : ℕ) (acc : List Puzzle)
      (evts : List (ℕ × ℕ × ℕ × ℕ)) (counts : List ℕ),
      (∀ pz ∈ (gamesLoop analyze pushUci sanFen df maxP minPly maxPly sample ul total
          rest idx acc evts counts).puzzles,
        pz ∈ acc ∨ ∃ gme ∈ rest, ∃ pc opp ply p,
          processPly analyze pushUci sanFen df gme pc opp ply p = some pz)
      ∧ (∀ c ∈ (gamesLoop analyze pushUci sanFen df maxP minPly maxPly sample ul total
          rest idx acc evts counts).analyzedCounts, c ∈ counts ∨ c ≤ 5)
      ∧ ((acc.length : ℤ) < maxP →
          ((gamesLoop analyze pushUci sanFen df maxP minPly maxPly sample ul total
            rest idx acc evts counts).puzzles.length : ℤ) ≤ maxP) := by
  intro rest
  induction rest with
  | nil =>
    intro idx acc evts counts
    refine ⟨?_, ?_, ?_⟩
    · intro pz h
      exact Or.inl (by simpa [gamesLoop] using h)
    · intro c hc
      exact Or.inl (by simpa [gamesLoop] using hc)
    · intro h
      simpa [gamesLoop] using le_of_lt h
  | cons g rest ih =>
    intro idx acc evts counts
    rcases hply : g.plys with _ | plys
    · have hgl : gamesLoop analyze pushUci sanFen df maxP minPly maxPly sample ul total
          (g :: rest) idx acc evts counts =
          gamesLoop analyze pushUci sanFen df maxP minPly maxPly sample ul total
            rest (idx + 1) acc
            (if 0 < total then evts ++ [(idx * 100 / total, idx, total, acc.length)] else evts)
            (counts ++ [0]) := by
        simp only [gamesLoop, hply]
      have hrec := ih (idx + 1) acc
        (if 0 < total then evts ++ [(idx * 100 / total, idx, total, acc.length)] else evts)
        (counts ++ [0])
      rw [hgl]
      refine ⟨?_, ?_, hrec.2.2⟩
      · intro pz h
        rcases hrec.1 pz h with h2 | ⟨gme, hg, rest2⟩
        · exact Or.inl h2
        · exact Or.inr ⟨gme, List.mem_cons_of_mem _ hg, rest2⟩
      · intro c hc
        rcases hrec.2.1 c hc with h2 | h2
        · rcases List.mem_append.mp h2 with h3 | h3
          · exact Or.inl h3
          · simp only [List.mem_singleton] at h3
            exact Or.inr (by omega)
        · exact Or.inr h2
    · obtain ⟨new, k, heq, hk, hlen2, hprov, hcap⟩ :=
        innerLoop_spec analyze pushUci sanFen df maxP g
          (if pyLower g.white_player = ul then "white" else "black")
          (if pyLower g.white_player = ul then g.black_player else g.white_player)
          (if 5 < (userPositions minPly maxPly
              (if pyLower g.white_player = ul then "white" else "black") plys).length then
            sample (userPositions minPly maxPly
              (if pyLower g.white_player = ul then "white" else "black") plys)
          else userPositions minPly maxPly
            (if pyLower g.white_player = ul then "white" else "black") plys)
          acc 0 0
      have hk5 : k ≤ 5 := by
        rcases Nat.lt_or_ge 5 (userPositions minPly maxPly
            (if pyLower g.white_player = ul then "white" else "black") plys).length with h5 | h5
        · rw [if_pos h5] at hk
          rw [hsample _ (le_of_lt h5)] at hk
          exact hk
        · rw [if_neg (by omega)] at hk
          omega
      have hgl : gamesLoop analyze pushUci sanFen df maxP minPly maxPly sample ul total
          (g :: rest) idx acc evts counts =
          (if maxP ≤ (((acc ++ new).length : ℕ) : ℤ) then
            ({ puzzles := acc ++ new
               progressEvents :=
                 if 0 < total then evts ++ [(idx * 100 / total, idx, total, acc.length)] else evts
               analyzedCounts := counts ++ [0 + k] } : GenResult)
          else gamesLoop analyze pushUci sanFen df maxP minPly maxPly sample ul total
            rest (idx + 1) (acc ++ new)
            (if 0 < total then evts ++ [(idx * 100 / total, idx, total, acc.length)] else evts)
            (counts ++ [0 + k])) := by
        simp only [gamesLoop, hply]
        rw [heq]
      rw [hgl]
      by_cases hmax : maxP ≤ (((acc ++ new).length : ℕ) : ℤ)
      · rw [if_pos hmax]
        refine ⟨?_, ?_, ?_⟩
        · intro pz h
          rcases List.mem_append.mp h with h2 | h2
          · exact Or.inl h2
          · obtain ⟨ply, p, hp⟩ := hprov pz h2
            exact Or.inr ⟨g, List.mem_cons_self _ _, _, _, ply, p, hp⟩
        · intro c hc
          rcases List.mem_append.mp hc with h2 | h2
          · exact Or.inl h2
          · simp only [List.mem_singleton] at h2
            exact Or.inr (by omega)
        · intro h
          exact hcap h
      · rw [if_neg hmax]
        have hrec := ih (idx + 1) (acc ++ new)
          (if 0 < total then evts ++ [(idx * 100 / total, idx, total, acc.length)] else evts)
          (counts ++ [0 + k])
        refine ⟨?_, ?_, ?_⟩
        · intro pz h
          rcases hrec.1 pz h with h2 | ⟨gme, hg, rest2⟩
          · rcases List.mem_append.mp h2 with h3 | h3
            · exact Or.inl h3
            · obtain ⟨ply, p, hp⟩ := hprov pz h3
              exact Or.inr ⟨g, List.mem_cons_self _ _, _, _, ply, p, hp⟩
          · exact Or.inr ⟨gme, List.mem_cons_of_mem _ hg, rest2⟩
        · intro c hc
          rcases hrec.2.1 c hc with h2 | h2
          · rcases List.mem_append.mp h2 with h3 | h3
            · exact Or.inl h3
            · simp only [List.mem_singleton] at h3
              exact Or.inr (by omega)
          · exact Or.inr h2
        · intro h
          exact hrec.2.2 (by omega)

/-- The difficulty filter acts as a pure post-filter: a run of one
sampled-ply iteration with a filter equals the unfiltered run followed
by the membership test on the computed difficulty (the filter check of
main.py lines 1086-1087 happens after classification and difficulty
assignment). -/
theorem processPly_eq
    (analyze : String → ℕ → AnalysisRes)
    (pushUci sanFen : String → String → Option String)
    (df : Option (List String))
    (g : SrcGame) (pc opp : String) (ply : ℕ) (p : GPly) :
    processPly analyze pushUci sanFen df g pc opp ply p =
      match processPly analyze pushUci sanFen none g pc opp ply p with
      | none => none
      | some pz => if passesDifficulty df pz.difficulty = true then some pz else none := by
  rcases hbm : (analyze p.fen 18).best_move with _ | bu
  · simp [processPly, hbm]
  by_cases hn : bu = "none"
  · simp [processPly, hbm, hn]
  rcases hpush : pushUci p.fen bu with _ | fb
  · simp [processPly, hbm, hn, hpush]
  rcases hcl : classifyPly (analyze p.fen 18).score_cp (-(analyze fb 15).score_cp)
      (-(analyze p.fenAfterPlayed 15).score_cp) (!decide (p.moveUci = bu)) with _ | ptl
  · simp [processPly, hbm, hn, hpush, hcl]
  obtain ⟨pt, loss⟩ := ptl
  have hpn : passesDifficulty none (difficultyOf loss) = true := rfl
  rcases hsan : sanFen p.fen bu with _ | bs
  · simp [processPly, hbm, hn, hpush, hcl, hpn, hsan]
  by_cases hm : pt = "mistake"
  · rcases hsan2 : sanFen p.fen p.moveUci with _ | ps
    · simp [processPly, hbm, hn, hpush, hcl, hpn, hsan, hm, hsan2]
    by_cases hf : passesDifficulty df (difficultyOf loss) = false
    · simp [processPly, hbm, hn, hpush, hcl, hpn, hsan, hm, hsan2, hf]
    · have hf2 : passesDifficulty df (difficultyOf loss) = true := by
        revert hf
        cases passesDifficulty df (difficultyOf loss) <;> simp
      simp [processPly, hbm, hn, hpush, hcl, hpn, hsan, hm, hsan2, hf, hf2]
  · by_cases hf : passesDifficulty df (difficultyOf loss) = false
    · simp [processPly, hbm, hn, hpush, hcl, hpn, hsan, hm, hf]
    · have hf2 : passesDifficulty df (difficultyOf loss) = true := by
        revert hf
        cases passesDifficulty df (difficultyOf loss) <;> simp
      simp [processPly, hbm, hn, hpush, hcl, hpn, hsan, hm, hf, hf2]

/-- C5: a sampled position is classified as a `mistake` puzzle exactly
when the played move differs from the oracle's best move and
`evalLoss = evalBeforeMove - evalAfterPlayedMove` is at least 100
centipawns; a position not so classified is a `tactical` puzzle
exactly when `evalBeforeMove - evalAfterBestMove` is at least 100, and
then its recorded `eval_loss_cp` is forced to 0; every other sampled
position yields no puzzle.  Consequently every puzzle a run emits is a
`mistake` with its recorded loss `position_eval - played_eval ≥ 100`
and a played move differing from the best move, or a `tactical` with
recorded loss 0. -/
theorem claim_C5 :
    (∀ (pe be ple : ℤ) (nb : Bool),
      (classifyPly pe be ple nb = some ("mistake", pe - ple) ↔ nb = true ∧ 100 ≤ pe - ple)
      ∧ (classifyPly pe be ple nb = some ("tactical", 0) ↔
          ¬(nb = true ∧ 100 ≤ pe - ple) ∧ 100 ≤ pe - be)
      ∧ (classifyPly pe be ple nb = none ↔
          ¬(nb = true ∧ 100 ≤ pe - ple) ∧ ¬(100 ≤ pe - be)))
    ∧ (∀ (games : List SrcGame) (username : String) (maxP : ℤ)
        (df : Option (List String)) (minPly maxPly : ℤ)
        (sample : List (ℕ × GPly) → List (ℕ × GPly))
        (analyze : String → ℕ → AnalysisRes)
        (pushUci sanFen : String → String → Option String),
        (∀ l, 5 ≤ l.length → (sample l).length = 5) →
        ∀ pz ∈ (generate_puzzles_from_games games username maxP df minPly maxPly
            sample analyze pushUci sanFen).puzzles,
          (pz.puzzle_type = "mistake" ∨ pz.puzzle_type = "tactical")
          ∧ (pz.puzzle_type = "tactical" → pz.eval_loss_cp = 0)
          ∧ (pz.puzzle_type = "mistake" → ∃ v, pz.played_move_eval_cp = some v
              ∧ pz.eval_loss_cp = pz.position_eval_cp - v ∧ 100 ≤ pz.eval_loss_cp
              ∧ ∃ u, pz.played_move = some u ∧ ¬u = pz.best_move)) := by
  constructor
  · intro pe be ple nb
    by_cases h1 : nb = true ∧ 100 ≤ pe - ple
    · simp [classifyPly, h1]
    · by_cases h2 : 100 ≤ pe - be
      · simp [classifyPly, h1, h2]
      · simp [classifyPly, h1, h2]
  · intro games username maxP df minPly maxPly sample analyze pushUci sanFen hsample pz hpz
    simp only [generate_puzzles_from_games] at hpz
    rcases (gamesLoop_spec analyze pushUci sanFen df maxP minPly maxPly sample
        _ _ hsample _ 0 [] [] []).1 pz hpz with h | ⟨gme, _, pc, opp, ply, p, hp⟩
    · cases h
    · have hs := processPly_spec analyze pushUci sanFen df gme pc opp ply p pz hp
      exact ⟨hs.1, fun ht => (hs.2.1 ht).1, hs.2.2.1⟩

/-- C5 (witness): a concrete run in which alice's played move loses
exactly 100 cp as the source computes it emits exactly one puzzle, and
the emitted puzzle satisfies the classification facts. -/
theorem claim_C5_witness :
    pzSc ∈ (generate_puzzles_from_games [gameSc] "alice" 50 none 0 20
        (fun l => l.take 5) analyzeSc2 pushSc sanSc).puzzles
    ∧ (pzSc.puzzle_type = "mistake" ∨ pzSc.puzzle_type = "tactical")
    ∧ (pzSc.puzzle_type = "tactical" → pzSc.eval_loss_cp = 0)
    ∧ (pzSc.puzzle_type = "mistake" → ∃ v, pzSc.played_move_eval_cp = some v
        ∧ pzSc.eval_loss_cp = pzSc.position_eval_cp - v ∧ 100 ≤ pzSc.eval_loss_cp
        ∧ ∃ u, pzSc.played_move = some u ∧ ¬u = pzSc.best_move) := by
  refine ⟨by decide, ?_⟩
  exact claim_C5.2 [gameSc] "alice" 50 none 0 20 (fun l => l.take 5) analyzeSc2 pushSc sanSc
    (fun l hl => by simp [List.length_take]; omega) pzSc (by decide)

/-- C6: the recorded difficulty is determined by the evaluation loss —
under 300 is `easy`, 300 to 599 is `medium`, 600 or more is `hard` —
tactical puzzles (loss forced to 0) are always `easy`, and the
caller's difficulty filter discards non-matching candidates only after
this classification is computed (a filtered run equals the unfiltered
run followed by the membership test on the computed difficulty). -/
theorem claim_C6 :
    (∀ loss : ℤ,
      (loss < 300 → difficultyOf loss = "easy")
      ∧ (300 ≤ loss → loss < 600 → difficultyOf loss = "medium")
      ∧ (600 ≤ loss → difficultyOf loss = "hard"))
    ∧ (∀ (games : List SrcGame) (username : String) (maxP : ℤ)
        (df : Option (List String)) (minPly maxPly : ℤ)
        (sample : List (ℕ × GPly) → List (ℕ × GPly))
        (analyze : String → ℕ → AnalysisRes)
        (pushUci sanFen : String → String → Option String),
        (∀ l, 5 ≤ l.length → (sample l).length = 5) →
        ∀ pz ∈ (generate_puzzles_from_games games username maxP df minPly maxPly
            sample analyze pushUci sanFen).puzzles,
          pz.difficulty = difficultyOf pz.eval_loss_cp
          ∧ (pz.puzzle_type = "tactical" → pz.difficulty = "easy")
          ∧ passesDifficulty df pz.difficulty = true)
    ∧ (∀ (analyze : String → ℕ → AnalysisRes)
        (pushUci sanFen : String → String → Option String)
        (F : List String) (g : SrcGame) (pc opp : String) (ply : ℕ) (p : GPly) (pz : Puzzle),
        processPly analyze pushUci sanFen (some F) g pc opp ply p = some pz ↔
          (processPly analyze pushUci sanFen none g pc opp ply p = some pz
           ∧ passesDifficulty (some F) pz.difficulty = true)) := by
  refine ⟨?_, ?_, ?_⟩
  · intro loss
    refine ⟨fun h => ?_, fun h1 h2 => ?_, fun h => ?_⟩ <;>
      (unfold difficultyOf; split_ifs <;> first | rfl | omega)
  · intro games username maxP df minPly maxPly sample analyze pushUci sanFen hsample pz hpz
    simp only [generate_puzzles_from_games] at hpz
    rcases (gamesLoop_spec analyze pushUci sanFen df maxP minPly maxPly sample
        _ _ hsample _ 0 [] [] []).1 pz hpz with h | ⟨gme, _, pc, opp, ply, p, hp⟩
    · cases h
    · have hs := processPly_spec analyze pushUci sanFen df gme pc opp ply p pz hp
      refine ⟨hs.2.2.2.1, fun ht => ?_, hs.2.2.2.2.1⟩
      rw [hs.2.2.2.1, (hs.2.1 ht).1]
      rfl
  · intro analyze pushUci sanFen F g pc opp ply p pz
    rw [processPly_eq analyze pushUci sanFen (some F) g pc opp ply p]
    rcases hnone : processPly analyze pushUci sanFen none g pc opp ply p with _ | q
    · simp
    · by_cases hq : passesDifficulty (some F) q.difficulty = true
      · simp only [hq, if_pos]
        constructor
        · intro h
          refine ⟨h, ?_⟩
          have : q = pz := by
            injection h
          subst this
          exact hq
        · intro h
          exact h.1
      · simp only [hq, if_neg]
        constructor
        · intro h
          cases h
        · intro h
          have : q = pz := by
            injection h.1
          subst this
          exact absurd h.2 hq

/-- C6 (witness): in the concrete scenario run the emitted puzzle's
difficulty is computed from its recorded loss and passes the (absent)
filter; instance of the amended filter law at the scenario's ply. -/
theorem claim_C6_witness :
    pzSc ∈ (generate_puzzles_from_games [gameSc] "alice" 50 none 0 20
        (fun l => l.take 5) analyzeSc2 pushSc sanSc).puzzles
    ∧ pzSc.difficulty = difficultyOf pzSc.eval_loss_cp
    ∧ (pzSc.puzzle_type = "tactical" → pzSc.difficulty = "easy")
    ∧ passesDifficulty none pzSc.difficulty = true
    ∧ (processPly analyzeSc2 pushSc sanSc (some ["easy"]) gameSc "white" "bob" 0
          ⟨true, "P0", "mv", "PP"⟩ = some pzSc ↔
        (processPly analyzeSc2 pushSc sanSc none gameSc "white" "bob" 0
            ⟨true, "P0", "mv", "PP"⟩ = some pzSc
         ∧ passesDifficulty (some ["easy"]) pzSc.difficulty = true)) := by
  have h := claim_C6.2.1 [gameSc] "alice" 50 none 0 20 (fun l => l.take 5) analyzeSc2 pushSc sanSc
    (fun l hl => by simp [List.length_take]; omega) pzSc (by decide)
  exact ⟨by decide, h.1, h.2.1, h.2.2,
    claim_C6.2.2 analyzeSc2 pushSc sanSc ["easy"] gameSc "white" "bob" 0
      ⟨true, "P0", "mv", "PP"⟩ pzSc⟩

/-- Splitting a puzzle count over an append. -/
theorem pzCount_append (gid : String) (a b : List Puzzle) :
    pzCount gid (a ++ b) = pzCount gid a + pzCount gid b := by
  simp [pzCount, List.filter_append]

/-- A puzzle count is bounded by the list length. -/
theorem pzCount_le_length (gid : String) (l : List Puzzle) :
    pzCount gid l ≤ l.length :=
  List.length_filter_le _ _

/-- A list free of `gid` puzzles counts zero. -/
theorem pzCount_eq_zero (gid : String) (l : List Puzzle)
    (h : ∀ q ∈ l, ¬q.game_id = gid) : pzCount gid l = 0 := by
  simp only [pzCount, List.length_eq_zero, List.filter_eq_nil_iff]
  intro q hq
  simpa using h q hq

/-- Through the game loop, at most two puzzles per `game_id` are ever
accumulated, provided the remaining games carry pairwise-distinct ids
none of which appears in the accumulator yet. -/
theorem gamesLoop_pzCount
    (analyze : String → ℕ → AnalysisRes)
    (pushUci sanFen : String → String → Option String)
    (df : Option (List String)) (maxP minPly maxPly : ℤ)
    (sample : List (ℕ × GPly) → List (ℕ × GPly))
    (ul : String) (total : ℕ) :
    ∀ (rest : List SrcGame) (idx : ℕ) (acc : List Puzzle)
      (evts : List (ℕ × ℕ × ℕ × ℕ)) (counts : List ℕ),
      List.Pairwise (fun a b : SrcGame => a.game_id ≠ b.game_id) rest →
      (∀ gme ∈ rest, pzCount gme.game_id acc = 0) →
      (∀ gid, pzCount gid acc ≤ 2) →
      ∀ gid, pzCount gid (gamesLoop analyze pushUci sanFen df maxP minPly maxPly sample
        ul total rest idx acc evts counts).puzzles ≤ 2 := by
  intro rest
  induction rest with
  | nil =>
    intro idx acc evts counts _ _ h3 gid
    simpa [gamesLoop] using h3 gid
  | cons g rest ih =>
    intro idx acc evts counts hpw h2 h3 gid
    have hpwc := List.pairwise_cons.mp hpw
    rcases hply : g.plys with _ | plys
    · have hgl : gamesLoop analyze pushUci sanFen df maxP minPly maxPly sample ul total
          (g :: rest) idx acc evts counts =
          gamesLoop analyze pushUci sanFen df maxP minPly maxPly sample ul total
            rest (idx + 1) acc
            (if 0 < total then evts ++ [(idx * 100 / total, idx, total, acc.length)] else evts)
            (counts ++ [0]) := by
        simp only [gamesLoop, hply]
      rw [hgl]
      exact ih (idx + 1) acc _ _ hpwc.2 (fun gme hg => h2 gme (List.mem_cons_of_mem _ hg)) h3 gid
    · obtain ⟨new, k, heq, hk, hlen2, hprov, hcap⟩ :=
        innerLoop_spec analyze pushUci sanFen df maxP g
          (if pyLower g.white_player = ul then "white" else "black")
          (if pyLower g.white_player = ul then g.black_player else g.white_player)
          (if 5 < (userPositions minPly maxPly
              (if pyLower g.white_player = ul then "white" else "black") plys).length then
            sample (userPositions minPly maxPly
              (if pyLower g.white_player = ul then "white" else "black") plys)
          else userPositions minPly maxPly
            (if pyLower g.white_player = ul then "white" else "black") plys)
          acc 0 0
      have hnew_id : ∀ q ∈ new, q.game_id = g.game_id := by
        intro q hq
        obtain ⟨ply, p, hp⟩ := hprov q hq
        exact (processPly_spec _ _ _ _ _ _ _ _ _ _ hp).2.2.2.2.2
      have hnew2 : new.length ≤ 2 := by
        have := hlen2
        omega
      have hcnt : ∀ gid2, pzCount gid2 (acc ++ new) ≤ 2 := by
        intro gid2
        rw [pzCount_append]
        by_cases hg : gid2 = g.game_id
        · have hz : pzCount gid2 acc = 0 := by
            rw [hg]
            exact h2 g (List.mem_cons_self _ _)
          have hb := pzCount_le_length gid2 new
          omega
        · have hz : pzCount gid2 new = 0 := by
            refine pzCount_eq_zero _ _ (fun q hq => ?_)
            rw [hnew_id q hq]
            exact fun hc => hg hc.symm
          have := h3 gid2
          omega
      have hgl : gamesLoop analyze pushUci sanFen df maxP minPly maxPly sample ul total
          (g :: rest) idx acc evts counts =
          (if maxP ≤ (((acc ++ new).length : ℕ) : ℤ) then
            ({ puzzles := acc ++ new
               progressEvents :=
                 if 0 < total then evts ++ [(idx * 100 / total, idx, total, acc.length)] else evts
               analyzedCounts := counts ++ [0 + k] } : GenResult)
          else gamesLoop analyze pushUci sanFen df maxP minPly maxPly sample ul total
            rest (idx + 1) (acc ++ new)
            (if 0 < total then evts ++ [(idx * 100 / total, idx, total, acc.length)] else evts)
            (counts ++ [0 + k])) := by
        simp only [gamesLoop, hply]
        rw [heq]
      rw [hgl]
      by_cases hmax : maxP ≤ (((acc ++ new).length : ℕ) : ℤ)
      · rw [if_pos hmax]
        exact hcnt gid
      · rw [if_neg hmax]
        refine ih (idx + 1) (acc ++ new) _ _ hpwc.2 (fun gme hg => ?_) hcnt gid
        rw [pzCount_append]
        have hz1 : pzCount gme.game_id acc = 0 := h2 gme (List.mem_cons_of_mem _ hg)
        have hz2 : pzCount gme.game_id new = 0 := by
          refine pzCount_eq_zero _ _ (fun q hq => ?_)
          rw [hnew_id q hq]
          exact fun hc => hpwc.1 gme hg hc
        omega

/-- C7 (counterexample): with `max_puzzles = 0` the function still
returns one candidate — the cap is only checked after a puzzle has
been appended (main.py lines 1131-1137) — refuting "returns at most
max_puzzles candidates in total" for non-positive caps. -/
theorem claim_C7_counterexample :
    (generate_puzzles_from_games [gameSc] "alice" 0 none 0 20
        (fun l => l.take 5) analyzeSc2 pushSc sanSc).puzzles.length = 1
    ∧ ¬(((generate_puzzles_from_games [gameSc] "alice" 0 none 0 20
        (fun l => l.take 5) analyzeSc2 pushSc sanSc).puzzles.length : ℤ) ≤ 0) := by
  refine ⟨by decide, by decide⟩

/-- C7 (amended): provided `max_puzzles ≥ 1` (a non-positive cap still
admits one candidate) and the stored games carry pairwise-distinct
`game_id` values, `generate_puzzles_from_games` returns at most
`max_puzzles` candidates in total, at most 2 candidates sharing the
same `game_id` value, and analyzes at most 5 sampled plies per game. -/
theorem claim_C7_amended
    (games : List SrcGame) (username : String) (maxP : ℤ)
    (df : Option (List String)) (minPly maxPly : ℤ)
    (sample : List (ℕ × GPly) → List (ℕ × GPly))
    (analyze : String → ℕ → AnalysisRes)
    (pushUci sanFen : String → String → Option String)
    (hmax : 1 ≤ maxP)
    (hsample : ∀ l, 5 ≤ l.length → (sample l).length = 5)
    (hids : List.Pairwise (fun a b : SrcGame => a.game_id ≠ b.game_id) games) :
    (((generate_puzzles_from_games games username maxP df minPly maxPly
        sample analyze pushUci sanFen).puzzles.length : ℤ) ≤ maxP)
    ∧ (∀ gid, pzCount gid (generate_puzzles_from_games games username maxP df minPly maxPly
        sample analyze pushUci sanFen).puzzles ≤ 2)
    ∧ (∀ c ∈ (generate_puzzles_from_games games username maxP df minPly maxPly
        sample analyze pushUci sanFen).analyzedCounts, c ≤ 5) := by
  simp only [generate_puzzles_from_games]
  have hspec := gamesLoop_spec analyze pushUci sanFen df maxP minPly maxPly sample
    (pyLower username)
    (games.filter (fun g => pyLower g.white_player = pyLower username
      || pyLower g.black_player = pyLower username)).length hsample
    (games.filter (fun g => pyLower g.white_player = pyLower username
      || pyLower g.black_player = pyLower username)) 0 [] [] []
  refine ⟨hspec.2.2 (by simpa using hmax), ?_, ?_⟩
  · intro gid
    refine gamesLoop_pzCount analyze pushUci sanFen df maxP minPly maxPly sample _ _ _ 0 [] [] []
      (List.Pairwise.sublist (List.filter_sublist _) hids) (fun gme _ => rfl)
      (fun gid2 => by simp [pzCount]) gid
  · intro c hc
    rcases hspec.2.1 c hc with h | h
    · cases h
    · exact h

/-- C7 (witness): instance of the amended theorem on the concrete
one-game scenario with cap 50. -/
theorem claim_C7_witness :
    (1 : ℤ) ≤ 50
    ∧ (((generate_puzzles_from_games [gameSc] "alice" 50 none 0 20
        (fun l => l.take 5) analyzeSc2 pushSc sanSc).puzzles.length : ℤ) ≤ 50)
    ∧ pzCount "g1" (generate_puzzles_from_games [gameSc] "alice" 50 none 0 20
        (fun l => l.take 5) analyzeSc2 pushSc sanSc).puzzles ≤ 2 := by
  have h := claim_C7_amended [gameSc] "alice" 50 none 0 20 (fun l => l.take 5)
    analyzeSc2 pushSc sanSc (by norm_num)
    (fun l hl => by simp [List.length_take]; omega) (by simp)
  exact ⟨by norm_num, h.1, h.2.1 "g1"⟩

/-- Round-half-to-even lands within one half of its argument. -/
theorem roundHalfEven_close (q : ℚ) : |((roundHalfEven q : ℤ) : ℚ) - q| ≤ 1 / 2 := by
  have h0 : ((⌊q⌋ : ℤ) : ℚ) ≤ q := Int.floor_le q
  have h1 : q < ((⌊q⌋ : ℤ) : ℚ) + 1 := Int.lt_floor_add_one q
  simp only [roundHalfEven]
  split_ifs with ha hb hc
  · rw [abs_sub_comm, abs_of_nonneg (by linarith)]
    linarith
  · push_cast
    rw [abs_of_nonneg (by linarith)]
    linarith
  · have hr : q - ((⌊q⌋ : ℤ) : ℚ) = 1 / 2 := le_antisymm (not_lt.mp hb) (not_lt.mp ha)
    rw [abs_sub_comm, abs_of_nonneg (by linarith)]
    linarith
  · have hr : q - ((⌊q⌋ : ℤ) : ℚ) = 1 / 2 := le_antisymm (not_lt.mp hb) (not_lt.mp ha)
    push_cast
    rw [abs_of_nonneg (by linarith)]
    linarith

/-- Rounding to one decimal place lands within one twentieth. -/
theorem roundTenth_close (q : ℚ) : |roundTenth q - q| ≤ 1 / 20 := by
  unfold roundTenth
  have h := roundHalfEven_close (10 * q)
  have he : ((roundHalfEven (10 * q) : ℤ) : ℚ) / 10 - q
      = (((roundHalfEven (10 * q) : ℤ) : ℚ) - 10 * q) / 10 := by
    ring
  rw [he, abs_div]
  have h10 : |(10 : ℚ)| = 10 := by norm_num
  rw [h10]
  linarith

/-- `tallyGame` preserves the tally invariant and adds one to the
count. -/
theorem tallyGame_wf (color result : String) (c : ContTally) (h : tallyWF c) :
    tallyWF (tallyGame color result c) ∧ (tallyGame color result c).count = c.count + 1 := by
  unfold tallyWF at h
  unfold tallyGame tallyWF
  split_ifs <;> exact ⟨by simp; omega, rfl⟩

/-- `bumpAssoc` preserves the tally invariant on every entry. -/
theorem bumpAssoc_wf (color result san : String) (l : List (String × ContTally))
    (h : ∀ kv ∈ l, tallyWF kv.2) :
    ∀ kv ∈ bumpAssoc color result san l, tallyWF kv.2 := by
  induction l with
  | nil =>
    intro kv hkv
    simp only [bumpAssoc, List.mem_singleton] at hkv
    subst hkv
    exact (tallyGame_wf color result ⟨san, 0, 0, 0, 0⟩ (by simp [tallyWF])).1
  | cons hd rest ih =>
    intro kv hkv
    obtain ⟨k, v⟩ := hd
    by_cases hk : k = san
    · simp only [bumpAssoc, if_pos hk] at hkv
      rcases List.mem_cons.mp hkv with h2 | h2
      · subst h2
        exact (tallyGame_wf color result v (h (k, v) (List.mem_cons_self _ _))).1
      · exact h kv (List.mem_cons_of_mem _ h2)
    · simp only [bumpAssoc, if_neg hk] at hkv
      rcases List.mem_cons.mp hkv with h2 | h2
      · subst h2
        exact h (k, v) (List.mem_cons_self _ _)
      · exact ih (fun kv2 hkv2 => h kv2 (List.mem_cons_of_mem _ hkv2)) kv h2

/-- The tally invariant holds of every dictionary entry built by the
game scan. -/
theorem contTallies_wf (color target : String) (san : String → Option String) :
    ∀ (games : List SrcGame) (acc : List (String × ContTally)),
      (∀ kv ∈ acc, tallyWF kv.2) →
      ∀ kv ∈ contTallies color target san games acc, tallyWF kv.2 := by
  intro games
  induction games with
  | nil =>
    intro acc h kv hkv
    simp only [contTallies] at hkv
    exact h kv hkv
  | cons g rest ih =>
    intro acc h kv hkv
    rcases hply : g.plys with _ | ps
    · simp only [contTallies, hply] at hkv
      exact ih acc h kv hkv
    · rcases hfm : findMatch target ps with _ | ply
      · simp only [contTallies, hply, hfm] at hkv
        exact ih acc h kv hkv
      · rcases hsan : san ply.moveUci with _ | sn
        · simp only [contTallies, hply, hfm, hsan] at hkv
          exact ih acc h kv hkv
        · simp only [contTallies, hply, hfm, hsan] at hkv
          exact ih _ (bumpAssoc_wf color g.result sn acc h) kv hkv

/-- Membership through the stable insertion. -/
theorem mem_insertByCountDesc (c x : Continuation) (l : List Continuation) :
    x ∈ insertByCountDesc c l ↔ x = c ∨ x ∈ l := by
  induction l with
  | nil => simp [insertByCountDesc]
  | cons d rest ih =>
    by_cases hd : d.count ≥ c.count
    · simp only [insertByCountDesc, if_pos hd, List.mem_cons, ih]
      tauto
    · simp only [insertByCountDesc, if_neg hd, List.mem_cons]

/-- Sorting by descending count is a permutation for membership. -/
theorem mem_sortByCountDesc (x : Continuation) (l : List Continuation) :
    x ∈ sortByCountDesc l ↔ x ∈ l := by
  suffices h : ∀ acc, x ∈ List.foldl (fun acc c => insertByCountDesc c acc) acc l
      ↔ x ∈ acc ∨ x ∈ l by
    simpa [sortByCountDesc] using h []
  induction l with
  | nil =>
    intro acc
    simp
  | cons c rest ih =>
    intro acc
    simp only [List.foldl_cons, ih, mem_insertByCountDesc, List.mem_cons]
    tauto

/-- Three one-decimal roundings of percentages that sum exactly to 100
sum to 100 within three twentieths. -/
theorem pct_sum_close (w d l n : ℕ) (hn : 0 < n) (hsum : w + d + l = n) :
    |roundTenth ((w : ℚ) / n * 100) + roundTenth ((d : ℚ) / n * 100)
      + roundTenth ((l : ℚ) / n * 100) - 100| ≤ 3 / 20 := by
  have hn0 : (n : ℚ) ≠ 0 := Nat.cast_ne_zero.mpr hn.ne'
  have hx : (w : ℚ) / n * 100 + (d : ℚ) / n * 100 + (l : ℚ) / n * 100 = 100 := by
    field_simp
    push_cast [← hsum]
    ring
  have h1 := roundTenth_close ((w : ℚ) / n * 100)
  have h2 := roundTenth_close ((d : ℚ) / n * 100)
  have h3 := roundTenth_close ((l : ℚ) / n * 100)
  have key : roundTenth ((w : ℚ) / n * 100) + roundTenth ((d : ℚ) / n * 100)
      + roundTenth ((l : ℚ) / n * 100) - 100
      = (roundTenth ((w : ℚ) / n * 100) - (w : ℚ) / n * 100)
      + (roundTenth ((d : ℚ) / n * 100) - (d : ℚ) / n * 100)
      + (roundTenth ((l : ℚ) / n * 100) - (l : ℚ) / n * 100) := by
    linear_combination hx
  rw [key]
  have ha := abs_add ((roundTenth ((w : ℚ) / n * 100) - (w : ℚ) / n * 100)
    + (roundTenth ((d : ℚ) / n * 100) - (d : ℚ) / n * 100))
    (roundTenth ((l : ℚ) / n * 100) - (l : ℚ) / n * 100)
  have hb := abs_add (roundTenth ((w : ℚ) / n * 100) - (w : ℚ) / n * 100)
    (roundTenth ((d : ℚ) / n * 100) - (d : ℚ) / n * 100)
  linarith

/-- C8: for every continuation returned by `find_continuations` whose
count is greater than 0, `win_pct + draw_pct + loss_pct` equals 100 up
to the tolerance of rounding each percentage to one decimal place
(one twentieth each, three twentieths in total). -/
theorem claim_C8
    (storageGames : List SrcGame) (targetPlacement color : String)
    (fromDate toDate : Option String) (timeControl : Option (List String))
    (usernames : Option (List String))
    (sanAtTarget parseSanPush : String → Option String)
    (analyze : String → Except String AnalysisRes)
    (c : Continuation)
    (hc : c ∈ find_continuations storageGames targetPlacement color fromDate toDate
      timeControl usernames sanAtTarget parseSanPush analyze)
    (hcount : 0 < c.count) :
    |c.win_pct + c.draw_pct + c.loss_pct - 100| ≤ 3 / 20 := by
  simp only [find_continuations] at hc
  rw [mem_sortByCountDesc] at hc
  obtain ⟨kv, hkv, hmk⟩ := List.mem_map.mp hc
  have hwf := contTallies_wf color targetPlacement sanAtTarget _ [] (by simp) kv hkv
  subst hmk
  have hcount2 : 0 < kv.2.count := hcount
  unfold tallyWF at hwf
  simp only [mkContinuation, if_pos hcount2]
  exact pct_sum_close kv.2.wins kv.2.draws kv.2.losses kv.2.count hcount2 hwf

/-- One-decimal rounding fixes the integer 100. -/
theorem roundTenth_hundred : roundTenth 100 = 100 := by
  have hf : ⌊(10 * 100 : ℚ)⌋ = 1000 := by norm_num
  simp only [roundTenth, roundHalfEven, hf]
  norm_num

/-- One-decimal rounding fixes 0. -/
theorem roundTenth_zero : roundTenth 0 = 0 := by
  have hf : ⌊(10 * 0 : ℚ)⌋ = 0 := by norm_num
  simp only [roundTenth, roundHalfEven, hf]
  norm_num

/-- A store holding one game that parses, reaches the target placement
and renders a SAN yields exactly the one-element continuation list
built from its tally (the computation of `find_continuations` on a
singleton store, for the white player by name). -/
theorem find_continuations_single
    (g : SrcGame) (target : String) (sanT parseT : String → Option String)
    (analyze : String → Except String AnalysisRes)
    (ps : List GPly) (ply : GPly) (san : String)
    (hplys : g.plys = some ps)
    (hfm : findMatch target ps = some ply)
    (hsan : sanT ply.moveUci = some san) :
    find_continuations [g] target "white" none none none (some [g.white_player])
      sanT parseT analyze
      = [mkContinuation parseT analyze (tallyGame "white" g.result ⟨san, 0, 0, 0, 0⟩)] := by
  have hw : pyLower "white" = "white" := by decide
  simp [find_continuations, contTallies, hplys, hfm, hsan, bumpAssoc,
    sortByCountDesc, insertByCountDesc, hw]

/-- The scenario query evaluates to the single continuation `contSc`. -/
theorem scenarioContinuations :
    find_continuations [gameSc] "P0" "white" none none none (some ["alice"]) sanAtSc
      parseSanPushSc analyzeScE = [contSc] := by
  have h := find_continuations_single gameSc "P0" sanAtSc parseSanPushSc analyzeScE
    [⟨true, "P0", "mv", "PP"⟩] ⟨true, "P0", "mv", "PP"⟩ "mv"
    (by decide) (by decide) (by decide)
  have htg : tallyGame "white" gameSc.result ⟨"mv", 0, 0, 0, 0⟩ = ⟨"mv", 1, 1, 0, 0⟩ := by
    decide
  have hev : contEval "mv" parseSanPushSc analyzeScE = ("-0.80", -80) := by decide
  rw [show ("alice" : String) = gameSc.white_player from rfl]
  rw [h, htg]
  have hmk : mkContinuation parseSanPushSc analyzeScE ⟨"mv", 1, 1, 0, 0⟩ = contSc := by
    norm_num [mkContinuation, hev, contSc, Continuation.mk.injEq, roundTenth, roundHalfEven]
  rw [hmk]

/-- C8 (witness): the scenario query returns the concrete continuation
`contSc` with count 1, whose percentages sum to 100 exactly. -/
theorem claim_C8_witness :
    contSc ∈ find_continuations [gameSc] "P0" "white" none none none (some ["alice"])
      sanAtSc parseSanPushSc analyzeScE
    ∧ 0 < contSc.count
    ∧ |contSc.win_pct + contSc.draw_pct + contSc.loss_pct - 100| ≤ 3 / 20 := by
  have hmem : contSc ∈ find_continuations [gameSc] "P0" "white" none none none
      (some ["alice"]) sanAtSc parseSanPushSc analyzeScE := by
    rw [scenarioContinuations]
    exact List.mem_singleton_self _
  refine ⟨hmem, by decide, ?_⟩
  exact claim_C8 [gameSc] "P0" "white" none none none (some ["alice"]) sanAtSc
    parseSanPushSc analyzeScE contSc hmem (by decide)

/-- C9: for every game G with result `"1-0"` whose PGN parses, that
reaches the target placement at some ply with a renderable SAN,
running `find_continuations` with color white and usernames
`[G.white_player]` on a store containing only G yields exactly one
continuation, whose win count is 1 and whose draw and loss counts are
0 (and whose occurrence count is 1). -/
theorem claim_C9
    (g : SrcGame) (target : String) (sanT parseT : String → Option String)
    (analyze : String → Except String AnalysisRes)
    (ps : List GPly) (ply : GPly) (san : String)
    (hres : g.result = "1-0")
    (hplys : g.plys = some ps)
    (hfm : findMatch target ps = some ply)
    (hsan : sanT ply.moveUci = some san) :
    (find_continuations [g] target "white" none none none (some [g.white_player])
      sanT parseT analyze).length = 1
    ∧ ∀ c ∈ find_continuations [g] target "white" none none none (some [g.white_player])
        sanT parseT analyze,
      c.count = 1 ∧ c.wins = 1 ∧ c.draws = 0 ∧ c.losses = 0 := by
  rw [find_continuations_single g target sanT parseT analyze ps ply san hplys hfm hsan]
  have htg : tallyGame "white" g.result ⟨san, 0, 0, 0, 0⟩ = ⟨san, 1, 1, 0, 0⟩ := by
    rw [hres]
    have hw : pyLower "white" = "white" := by decide
    simp [tallyGame, hw]
  rw [htg]
  refine ⟨rfl, ?_⟩
  intro c hc
  rw [List.mem_singleton] at hc
  subst hc
  exact ⟨rfl, rfl, rfl, rfl⟩

/-- C9 (witness): the scenario instance — alice's won game, target
placement `"P0"` — yields exactly the continuation `contSc` with one
win and no draws or losses. -/
theorem claim_C9_witness :
    (find_continuations [gameSc] "P0" "white" none none none (some [gameSc.white_player])
      sanAtSc parseSanPushSc analyzeScE).length = 1
    ∧ contSc ∈ find_continuations [gameSc] "P0" "white" none none none
        (some [gameSc.white_player]) sanAtSc parseSanPushSc analyzeScE
    ∧ contSc.count = 1 ∧ contSc.wins = 1 ∧ contSc.draws = 0 ∧ contSc.losses = 0 := by
  have h := claim_C9 gameSc "P0" sanAtSc parseSanPushSc analyzeScE
    [⟨true, "P0", "mv", "PP"⟩] ⟨true, "P0", "mv", "PP"⟩ "mv"
    (by decide) (by decide) (by decide) (by decide)
  have hmem : contSc ∈ find_continuations [gameSc] "P0" "white" none none none
      (some [gameSc.white_player]) sanAtSc parseSanPushSc analyzeScE := by
    have hs : find_continuations [gameSc] "P0" "white" none none none
        (some [gameSc.white_player]) sanAtSc parseSanPushSc analyzeScE = [contSc] :=
      scenarioContinuations
    rw [hs]
    exact List.mem_singleton_self _
  have hc := h.2 contSc hmem
  exact ⟨h.1, hmem, hc.1, hc.2.1, hc.2.2.1, hc.2.2.2⟩

/-- The last element of a list extended by one element. -/
theorem getLastD_concat2 {α : Type} (l : List α) (a d : α) :
    (l ++ [a]).getLastD d = a := by
  simp [List.getLastD_eq_getLast?, List.getLast?_concat]

/-- `overall_progress` in exact arithmetic is integer division. -/
theorem importOverall_eq (T i p : ℕ) (hT : 0 < T) :
    importOverall T i p = (((100 * i + p) / T : ℕ) : ℤ) := by
  have hTQ : (0 : ℚ) < (T : ℚ) := by exact_mod_cast hT
  have harg : ((i : ℚ) / (T : ℚ)) * 100 + ((p : ℚ) / 100) * ((100 : ℚ) / (T : ℚ))
      = ((100 * i + p : ℕ) : ℚ) / (T : ℚ) := by
    field_simp
    ring
  rw [importOverall, harg]
  rw [Int.floor_eq_iff]
  constructor
  · rw [le_div_iff₀ hTQ]
    exact_mod_cast Nat.div_mul_le_self (100 * i + p) T
  · rw [div_lt_iff₀ hTQ]
    have h2 : 100 * i + p < ((100 * i + p) / T + 1) * T := by
      have hm := Nat.div_add_mod (100 * i + p) T
      have hlt := Nat.mod_lt (100 * i + p) hT
      have hq : ((100 * i + p) / T + 1) * T = T * ((100 * i + p) / T) + T := by ring
      linarith
    push_cast
    exact_mod_cast h2

/-- `overall_progress` is nonnegative. -/
theorem importOverall_nonneg (T i p : ℕ) (hT : 0 < T) : 0 ≤ importOverall T i p := by
  rw [importOverall_eq T i p hT]
  exact_mod_cast Nat.zero_le _

/-- `overall_progress` is monotone in (platform index, platform
progress), lexicographically, for in-range progress values. -/
theorem importOverall_mono (T : ℕ) (hT : 0 < T) {a b : ℕ × ℕ} (hp : a.2 ≤ 100)
    (hlex : a.1 < b.1 ∨ (a.1 = b.1 ∧ a.2 ≤ b.2)) :
    importOverall T a.1 a.2 ≤ importOverall T b.1 b.2 := by
  rw [importOverall_eq _ _ _ hT, importOverall_eq _ _ _ hT]
  have h : 100 * a.1 + a.2 ≤ 100 * b.1 + b.2 := by omega
  exact_mod_cast Nat.div_le_div_right h

/-- The progress fields along the scanned puzzle-task states. -/
theorem scanl_puzzle_progress_map (events : List (ℕ × ℕ × ℕ × ℕ)) :
    ∀ r0 : PuzzleTaskRec,
      (List.scanl applyPuzzleEvent r0 events).map (fun r => r.progress)
        = r0.progress :: events.map (fun e => min e.1 99) := by
  induction events with
  | nil =>
    intro r0
    simp [List.scanl_nil]
  | cons e l ih =>
    intro r0
    rw [List.scanl_cons]
    simp only [List.singleton_append, List.map_cons]
    rw [ih]
    rfl

/-- Statuses along the scanned puzzle-task states stay `running`. -/
theorem scanl_puzzle_status (events : List (ℕ × ℕ × ℕ × ℕ)) :
    ∀ r0 : PuzzleTaskRec, r0.status = .running →
      ∀ r ∈ List.scanl applyPuzzleEvent r0 events, r.status = .running := by
  induction events with
  | nil =>
    intro r0 h r hr
    simp only [List.scanl_nil, List.mem_singleton] at hr
    subst hr
    exact h
  | cons e l ih =>
    intro r0 h r hr
    rw [List.scanl_cons] at hr
    simp only [List.singleton_append] at hr
    rcases List.mem_cons.mp hr with h2 | h2
    · subst h2
      exact h
    · exact ih (applyPuzzleEvent r0 e) h r h2

/-- The progress fields along the scanned import-task states. -/
theorem scanl_import_progress_map (T : ℕ) (events : List (ℕ × ℕ)) :
    ∀ r0 : ImportTaskRec,
      (List.scanl (applyImportEvent T) r0 events).map (fun r => r.progress)
        = r0.progress :: events.map (fun e => min (importOverall T e.1 e.2) 99) := by
  induction events with
  | nil =>
    intro r0
    simp [List.scanl_nil]
  | cons e l ih =>
    intro r0
    rw [List.scanl_cons]
    simp only [List.singleton_append, List.map_cons]
    rw [ih]
    rfl

/-- Statuses along the scanned import-task states stay `running`. -/
theorem scanl_import_status (T : ℕ) (events : List (ℕ × ℕ)) :
    ∀ r0 : ImportTaskRec, r0.status = .running →
      ∀ r ∈ List.scanl (applyImportEvent T) r0 events, r.status = .running := by
  induction events with
  | nil =>
    intro r0 h r hr
    simp only [List.scanl_nil, List.mem_singleton] at hr
    subst hr
    exact h
  | cons e l ih =>
    intro r0 h r hr
    rw [List.scanl_cons] at hr
    simp only [List.singleton_append] at hr
    rcases List.mem_cons.mp hr with h2 | h2
    · subst h2
      exact h
    · exact ih (applyImportEvent T r0 e) h r h2

/-- Capping a nondecreasing sequence at 99 keeps it nondecreasing. -/
theorem chain_min99 (l : List ℕ) (h : List.Chain' (· ≤ ·) l) :
    List.Chain' (· ≤ ·) (l.map (fun x => min x 99)) := by
  rw [List.chain'_map]
  exact h.imp (fun {a b} hab => min_le_min hab (le_refl 99))


/-- Well-formed import callback events produce a nondecreasing capped
overall-progress sequence. -/
theorem chain_import_pcts (T : ℕ) (hT : 0 < T) :
    ∀ events : List (ℕ × ℕ),
      (∀ e ∈ events, e.1 < T ∧ e.2 ≤ 100) →
      List.Chain' (fun a b : ℕ × ℕ => a.1 < b.1 ∨ (a.1 = b.1 ∧ a.2 ≤ b.2)) events →
      List.Chain' (· ≤ ·) (events.map (fun e => min (importOverall T e.1 e.2) 99)) := by
  intro events
  induction events with
  | nil =>
    intro _ _
    simp
  | cons e l ih =>
    intro hb hch
    rcases l with _ | ⟨e2, l2⟩
    · simp
    · rw [List.map_cons, List.map_cons, List.chain'_cons]
      constructor
      · have h1 := hb e (List.mem_cons_self _ _)
        have hlex := (List.chain'_cons.mp hch).1
        exact min_le_min (importOverall_mono T hT h1.2 hlex) (le_refl 99)
      · have h2 := ih (fun x hx => hb x (List.mem_cons_of_mem _ hx)) (List.chain'_cons.mp hch).2
        simpa using h2

/-- The progress percentages emitted by the game loop are
nondecreasing: each new event carries `game_idx * 100 / total` for a
strictly growing `game_idx`. -/
theorem gamesLoop_events_chain
    (analyze : String → ℕ → AnalysisRes)
    (pushUci sanFen : String → String → Option String)
    (df : Option (List String)) (maxP minPly maxPly : ℤ)
    (sample : List (ℕ × GPly) → List (ℕ × GPly))
    (ul : String) (total : ℕ) :
    ∀ (rest : List SrcGame) (idx : ℕ) (acc : List Puzzle)
      (evts : List (ℕ × ℕ × ℕ × ℕ)) (counts : List ℕ),
      List.Chain' (· ≤ ·) (evts.map (fun e => e.1)) →
      (∀ e ∈ evts, e.1 ≤ idx * 100 / total) →
      List.Chain' (· ≤ ·) ((gamesLoop analyze pushUci sanFen df maxP minPly maxPly sample
        ul total rest idx acc evts counts).progressEvents.map (fun e => e.1)) := by
  intro rest
  induction rest with
  | nil =>
    intro idx acc evts counts hch _
    simpa [gamesLoop] using hch
  | cons g rest ih =>
    intro idx acc evts counts hch hbnd
    have hch2 : List.Chain' (· ≤ ·) ((if 0 < total then
        evts ++ [(idx * 100 / total, idx, total, acc.length)] else evts).map (fun e => e.1)) := by
      split_ifs
      · rw [List.map_append, List.chain'_append]
        refine ⟨hch, List.chain'_singleton _, ?_⟩
        intro x hx y hy
        simp only [List.map_cons, List.map_nil, List.head?_cons, Option.mem_def,
          Option.some.injEq] at hy
        subst hy
        obtain ⟨hne, hxl⟩ := List.mem_getLast?_eq_getLast hx
        have hxm : x ∈ evts.map (fun e => e.1) := hxl ▸ List.getLast_mem hne
        obtain ⟨e, he, rfl⟩ := List.mem_map.mp hxm
        exact hbnd e he
      · exact hch
    have hbnd2 : ∀ e ∈ (if 0 < total then
        evts ++ [(idx * 100 / total, idx, total, acc.length)] else evts),
        e.1 ≤ (idx + 1) * 100 / total := by
      intro e he
      have hmono : idx * 100 / total ≤ (idx + 1) * 100 / total :=
        Nat.div_le_div_right (by omega)
      split_ifs at he
      · rcases List.mem_append.mp he with h2 | h2
        · exact le_trans (hbnd e h2) hmono
        · simp only [List.mem_singleton] at h2
          subst h2
          exact hmono
      · exact le_trans (hbnd e he) hmono
    rcases hply : g.plys with _ | plys
    · have hgl : gamesLoop analyze pushUci sanFen df maxP minPly maxPly sample ul total
          (g :: rest) idx acc evts counts =
          gamesLoop analyze pushUci sanFen df maxP minPly maxPly sample ul total
            rest (idx + 1) acc
            (if 0 < total then evts ++ [(idx * 100 / total, idx, total, acc.length)] else evts)
            (counts ++ [0]) := by
        simp only [gamesLoop, hply]
      rw [hgl]
      exact ih (idx + 1) acc _ _ hch2 hbnd2
    · obtain ⟨new, k, heq, hk, hlen2, hprov, hcap⟩ :=
        innerLoop_spec analyze pushUci sanFen df maxP g
          (if pyLower g.white_player = ul then "white" else "black")
          (if pyLower g.white_player = ul then g.black_player else g.white_player)
          (if 5 < (userPositions minPly maxPly
              (if pyLower g.white_player = ul then "white" else "black") plys).length then
            sample (userPositions minPly maxPly
              (if pyLower g.white_player = ul then "white" else "black") plys)
          else userPositions minPly maxPly
            (if pyLower g.white_player = ul then "white" else "black") plys)
          acc 0 0
      have hgl : gamesLoop analyze pushUci sanFen df maxP minPly maxPly sample ul total
          (g :: rest) idx acc evts counts =
          (if maxP ≤ (((acc ++ new).length : ℕ) : ℤ) then
            ({ puzzles := acc ++ new
               progressEvents :=
                 if 0 < total then evts ++ [(idx * 100 / total, idx, total, acc.length)] else evts
               analyzedCounts := counts ++ [0 + k] } : GenResult)
          else gamesLoop analyze pushUci sanFen df maxP minPly maxPly sample ul total
            rest (idx + 1) (acc ++ new)
            (if 0 < total then evts ++ [(idx * 100 / total, idx, total, acc.length)] else evts)
            (counts ++ [0 + k])) := by
        simp only [gamesLoop, hply]
        rw [heq]
      rw [hgl]
      by_cases hmax : maxP ≤ (((acc ++ new).length : ℕ) : ℤ)
      · rw [if_pos hmax]
        exact hch2
      · rw [if_neg hmax]
        exact ih (idx + 1) (acc ++ new) _ _ hch2 hbnd2

/-- C2 (counterexample): a failing import task resets its progress to
0 (main.py lines 459-464).  A one-platform import whose fetcher
reported 50% and which then raises produces the record states
`running/0`, `running/50`, `failed/0` — the progress decreased over
the task's lifetime, refuting "progress never resets". -/
theorem claim_C2_counterexample :
    importTaskTrace 1 [(0, 50)] ⟨0, 0, 0⟩ (some "boom") =
      [importTaskInit, { importTaskInit with progress := 50 },
       { importTaskInit with status := .failed, error := some "boom", progress := 0 }]
    ∧ ¬ List.Chain' (fun a b : ImportTaskRec => a.progress ≤ b.progress)
        (importTaskTrace 1 [(0, 50)] ⟨0, 0, 0⟩ (some "boom")) := by
  have h50 : importOverall 1 0 50 = 50 := by
    rw [importOverall_eq 1 0 50 (by norm_num)]
    norm_num
  have heq : importTaskTrace 1 [(0, 50)] ⟨0, 0, 0⟩ (some "boom") =
      [importTaskInit, { importTaskInit with progress := 50 },
       { importTaskInit with status := .failed, error := some "boom", progress := 0 }] := by
    simp [importTaskTrace, List.scanl, applyImportEvent, h50, List.getLastD]
  refine ⟨heq, ?_⟩
  rw [heq]
  intro hch
  rw [List.chain'_cons, List.chain'_cons] at hch
  have h2 := hch.2.1
  norm_num at h2

/-- C2 (amended): for every task record kept by the orchestrator, the
status only ever transitions from `running` to `completed` or from
`running` to `failed` and never changes once terminal (every state but
the last is `running`, the last is terminal); while the status is
`running` the progress stays in [0, 99] and is non-decreasing;
progress is set to 100 on completion.  On failure the puzzle task
leaves the progress at its last running value, but the import task
resets it to 0 — so "progress never resets over the task's lifetime"
holds only up to the failure transition of import tasks. -/
theorem claim_C2_amended :
    (∀ (games : List SrcGame) (username : String) (maxP : ℤ)
       (df : Option (List String)) (minPly maxPly : ℤ)
       (sample : List (ℕ × GPly) → List (ℕ × GPly))
       (analyze : String → ℕ → AnalysisRes)
       (pushUci sanFen : String → String → Option String)
       (outcome : Except String (List Puzzle)) (tr : List PuzzleTaskRec),
      tr = puzzleTaskTrace (generate_puzzles_from_games games username maxP df minPly maxPly
        sample analyze pushUci sanFen).progressEvents outcome →
      (∀ r ∈ tr.dropLast, r.status = .running)
      ∧ ((tr.getLastD puzzleTaskInit).status = .completed ∨
          (tr.getLastD puzzleTaskInit).status = .failed)
      ∧ (∀ ps, outcome = .ok ps → (tr.getLastD puzzleTaskInit).status = .completed
          ∧ (tr.getLastD puzzleTaskInit).progress = 100)
      ∧ (∀ e, outcome = .error e → (tr.getLastD puzzleTaskInit).status = .failed
          ∧ (tr.getLastD puzzleTaskInit).progress =
            ((List.scanl applyPuzzleEvent puzzleTaskInit
              (generate_puzzles_from_games games username maxP df minPly maxPly
                sample analyze pushUci sanFen).progressEvents).getLastD
                  puzzleTaskInit).progress)
      ∧ (∀ r ∈ tr.dropLast, r.progress ≤ 99)
      ∧ List.Chain' (fun a b : PuzzleTaskRec => a.progress ≤ b.progress) tr.dropLast)
    ∧ (∀ (T : ℕ) (events : List (ℕ × ℕ)) (counts : ImportCounts)
        (outcome : Option String) (tr : List ImportTaskRec),
      importEventsWF T events →
      tr = importTaskTrace T events counts outcome →
      (∀ r ∈ tr.dropLast, r.status = .running)
      ∧ ((tr.getLastD importTaskInit).status = .completed ∨
          (tr.getLastD importTaskInit).status = .failed)
      ∧ (outcome = none → (tr.getLastD importTaskInit).status = .completed
          ∧ (tr.getLastD importTaskInit).progress = 100)
      ∧ (∀ e, outcome = some e → (tr.getLastD importTaskInit).status = .failed
          ∧ (tr.getLastD importTaskInit).progress = 0)
      ∧ (∀ r ∈ tr.dropLast, 0 ≤ r.progress ∧ r.progress ≤ 99)
      ∧ List.Chain' (fun a b : ImportTaskRec => a.progress ≤ b.progress) tr.dropLast) := by
  constructor
  · intro games username maxP df minPly maxPly sample analyze pushUci sanFen outcome tr htr
    have hchain : List.Chain' (· ≤ ·)
        ((generate_puzzles_from_games games username maxP df minPly maxPly
          sample analyze pushUci sanFen).progressEvents.map (fun e => e.1)) := by
      simp only [generate_puzzles_from_games]
      exact gamesLoop_events_chain analyze pushUci sanFen df maxP minPly maxPly sample _ _
        _ 0 [] [] [] (by simp) (by simp)
    have hdrop : tr.dropLast = List.scanl applyPuzzleEvent puzzleTaskInit
        (generate_puzzles_from_games games username maxP df minPly maxPly
          sample analyze pushUci sanFen).progressEvents := by
      rw [htr]
      cases outcome <;> simp [puzzleTaskTrace, List.dropLast_concat]
    refine ⟨?_, ?_, ?_, ?_, ?_, ?_⟩
    · intro r hr
      rw [hdrop] at hr
      exact scanl_puzzle_status _ puzzleTaskInit rfl r hr
    · rw [htr]
      cases outcome with
      | error e => exact Or.inr (by simp [puzzleTaskTrace, getLastD_concat2])
      | ok ps => exact Or.inl (by simp [puzzleTaskTrace, getLastD_concat2])
    · intro ps hps
      subst hps
      rw [htr]
      exact ⟨by simp [puzzleTaskTrace, getLastD_concat2],
        by simp [puzzleTaskTrace, getLastD_concat2]⟩
    · intro e he
      subst he
      rw [htr]
      exact ⟨by simp [puzzleTaskTrace, getLastD_concat2],
        by simp [puzzleTaskTrace, getLastD_concat2]⟩
    · intro r hr
      rw [hdrop] at hr
      have hmem : r.progress ∈ (List.scanl applyPuzzleEvent puzzleTaskInit
          (generate_puzzles_from_games games username maxP df minPly maxPly
            sample analyze pushUci sanFen).progressEvents).map (fun r => r.progress) :=
        List.mem_map_of_mem _ hr
      rw [scanl_puzzle_progress_map] at hmem
      rcases List.mem_cons.mp hmem with h2 | h2
      · rw [h2]
        exact Nat.zero_le 99
      · obtain ⟨e, he, hpe⟩ := List.mem_map.mp h2
        rw [← hpe]
        exact min_le_right _ _
    · rw [hdrop]
      refine (List.chain'_map (fun r : PuzzleTaskRec => r.progress)).mp ?_
      rw [scanl_puzzle_progress_map]
      rw [List.chain'_cons']
      constructor
      · intro y hy
        exact Nat.zero_le y
      · have h3 := chain_min99 _ hchain
        rw [List.map_map] at h3
        exact h3
  · intro T events counts outcome tr hwf htr
    obtain ⟨hT, hbnd, hch⟩ := hwf
    have hT0 : 0 < T := hT
    have hchain := chain_import_pcts T hT0 events hbnd hch
    have hdrop : tr.dropLast = List.scanl (applyImportEvent T) importTaskInit events := by
      rw [htr]
      cases outcome <;> simp [importTaskTrace, List.dropLast_concat]
    refine ⟨?_, ?_, ?_, ?_, ?_, ?_⟩
    · intro r hr
      rw [hdrop] at hr
      exact scanl_import_status T _ importTaskInit rfl r hr
    · rw [htr]
      cases outcome with
      | none => exact Or.inl (by simp [importTaskTrace, getLastD_concat2])
      | some e => exact Or.inr (by simp [importTaskTrace, getLastD_concat2])
    · intro hnone
      subst hnone
      rw [htr]
      exact ⟨by simp [importTaskTrace, getLastD_concat2],
        by simp [importTaskTrace, getLastD_concat2]⟩
    · intro e he
      subst he
      rw [htr]
      exact ⟨by simp [importTaskTrace, getLastD_concat2],
        by simp [importTaskTrace, getLastD_concat2]⟩
    · intro r hr
      rw [hdrop] at hr
      have hmem : r.progress ∈ (List.scanl (applyImportEvent T) importTaskInit events).map
          (fun r => r.progress) := List.mem_map_of_mem _ hr
      rw [scanl_import_progress_map] at hmem
      rcases List.mem_cons.mp hmem with h2 | h2
      · rw [h2]
        exact ⟨le_refl 0, by norm_num [importTaskInit]⟩
      · obtain ⟨e, he, hpe⟩ := List.mem_map.mp h2
        rw [← hpe]
        exact ⟨le_min (importOverall_nonneg T e.1 e.2 hT0) (by norm_num), min_le_right _ _⟩
    · rw [hdrop]
      refine (List.chain'_map (fun r : ImportTaskRec => r.progress)).mp ?_
      rw [scanl_import_progress_map]
      rw [List.chain'_cons']
      constructor
      · intro y hy
        obtain ⟨e, he, hpe⟩ := List.mem_map.mp (by
          have := hy
          exact List.mem_of_mem_head? this)
        rw [← hpe]
        exact le_min (importOverall_nonneg T e.1 e.2 hT0) (by norm_num [importTaskInit])
      · exact hchain

/-- C2 (witness): a completing one-platform import run with callbacks
at 30% and 60%, and a failing puzzle run on the concrete scenario. -/
theorem claim_C2_witness :
    importEventsWF 1 [(0, 30), (0, 60)]
    ∧ ((importTaskTrace 1 [(0, 30), (0, 60)] ⟨5, 3, 2⟩ none).getLastD importTaskInit).status
        = .completed
    ∧ ((importTaskTrace 1 [(0, 30), (0, 60)] ⟨5, 3, 2⟩ none).getLastD importTaskInit).progress
        = 100
    ∧ ((puzzleTaskTrace (generate_puzzles_from_games [gameSc] "alice" 50 none 0 20
        (fun l => l.take 5) analyzeSc2 pushSc sanSc).progressEvents
        (.error "boom")).getLastD puzzleTaskInit).status = .failed := by
  have hwf : importEventsWF 1 [(0, 30), (0, 60)] := by
    refine ⟨le_refl 1, by decide, ?_⟩
    rw [List.chain'_cons]
    exact ⟨Or.inr ⟨rfl, by norm_num⟩, List.chain'_singleton _⟩
  have h2 := claim_C2_amended.2 1 [(0, 30), (0, 60)] ⟨5, 3, 2⟩ none _ hwf rfl
  have h1 := claim_C2_amended.1 [gameSc] "alice" 50 none 0 20 (fun l => l.take 5)
    analyzeSc2 pushSc sanSc (.error "boom") _ rfl
  exact ⟨hwf, (h2.2.2.1 rfl).1, (h2.2.2.1 rfl).2, (h1.2.2.2.1 "boom" rfl).1⟩

end ChessStudy
